import Mathlib

/-!
# FlowForge backend: verification of the workflow engine

Shallow embedding of the FlowForge backend (apps/backend/src/backend):
the workflow schema, parameter templating, Kahn topological sort, the DAG
executor, the simulator slack service, the workflow store, the generated
connector validator, the sandboxed command tool environment allowlist, and
the service layer builder.  Python dicts that are only read by key are
modelled as total functions with the dict default; dicts whose iteration
order matters (workflow parameters, node outputs, result dicts) are
modelled as insertion-ordered association lists.  Timestamps are dropped:
no property below depends on them.

Braces inside template strings are written with the escapes \x7b and \x7d
(the characters are the ordinary ASCII braces of the Python source).
-/

/-- One pass of Python `str.replace`: replace every non-overlapping
occurrence of `pat` left to right.  The fuel is the remaining character
count, which bounds the recursion (each step consumes at least one
character). -/
def replaceChars (pat rep : List Char) : Nat → List Char → List Char
  | 0, l => l
  | _ + 1, [] => []
  | fuel + 1, c :: rest =>
    if pat ≠ [] ∧ pat.isPrefixOf (c :: rest) then
      rep ++ replaceChars pat rep fuel (rest.drop (pat.length - 1))
    else c :: replaceChars pat rep fuel rest

/-- Python `s.replace(old, new)`: all non-overlapping occurrences,
scanned left to right. -/
def pyReplace (s old new : String) : String :=
  ⟨replaceChars old.data new.data s.data.length s.data⟩

/-- Does the character list contain the (non-empty) pattern? -/
def containsChars (pat : List Char) : List Char → Bool
  | [] => false
  | c :: rest => pat.isPrefixOf (c :: rest) || containsChars pat rest

/-- Python `sub in s` for a non-empty substring. -/
def pyContains (s sub : String) : Bool :=
  containsChars sub.data s.data

/-- Python `s.startswith(p)`. -/
def pyStartsWith (s p : String) : Bool :=
  p.data.isPrefixOf s.data

/-- Python `s.endswith(p)`. -/
def pyEndsWith (s p : String) : Bool :=
  p.data.isSuffixOf s.data

/-- Lexicographic comparison of character lists by code point. -/
def charsLt : List Char → List Char → Bool
  | [], [] => false
  | [], _ :: _ => true
  | _ :: _, [] => false
  | a :: as_, b :: bs => if a < b then true else if b < a then false else charsLt as_ bs

/-- Python `a < b` on strings: lexicographic by code point. -/
def strLtB (a b : String) : Bool :=
  charsLt a.data b.data

/-- A scalar parameter/result value (`Any` in the Python schema restricted
to the scalars the system manipulates: strings and numbers).  Python
truthiness and `str()` are modelled by `truthy` and `toStr`. -/
inductive PValue where
  | str (s : String)
  | intv (n : Int)
deriving DecidableEq

/-- Python truthiness of a scalar: empty string and zero are falsy. -/
def PValue.truthy : PValue → Bool
  | .str s => s ≠ ""
  | .intv n => n ≠ 0

/-- Python `str()` of a scalar. -/
def PValue.toStr : PValue → String
  | .str s => s
  | .intv n => toString n

/-- An insertion-ordered string-keyed dictionary of scalars
(parameter bags and result payloads). -/
abbrev Dict := List (String × PValue)

/-- Python dict assignment `d[k] = v`: overwrite in place when the key is
present, append otherwise (insertion order preserved). -/
def dictInsert (d : Dict) (k : String) (v : PValue) : Dict :=
  if d.any (fun kv => kv.1 = k) then
    d.map (fun kv => if kv.1 = k then (k, v) else kv)
  else
    d ++ [(k, v)]

/-- Python dict lookup `d.get(k, default)`. -/
def dictGet (d : Dict) (k : String) (default : PValue) : PValue :=
  match d.find? (fun kv => kv.1 = k) with
  | some kv => kv.2
  | none => default

/-- Trace step status (`"success" | "failed" | "skipped"`). -/
inductive StepStatus where
  | success
  | failed
  | skipped
deriving DecidableEq

/-- `TraceStep` of simulator/state.py, without the timestamp. -/
structure TraceStep where
  nodeId : String
  service : String
  action : String
  parameters : Dict
  result : Option Dict
  status : StepStatus
  error : Option String
deriving DecidableEq

/-- A Python exception as observed by the executor:
`ServiceError(message, error_type)`, the `ValueError` raised on a cycle,
or any other exception rendered by `str(e)`. -/
inductive PyErr where
  | serviceError (message : String) (errorType : String)
  | cycleDetected (missing : List String)
  | exc (message : String)
deriving DecidableEq

/-- `str(e)` for exceptions the executor catches and stores in a step. -/
def PyErr.toMessage : PyErr → String
  | .serviceError m _ => m
  | .cycleDetected _ => "Cycle detected in workflow DAG"
  | .exc m => m

/-- `isinstance(e, ServiceError)`. -/
def PyErr.isServiceError : PyErr → Bool
  | .serviceError _ _ => true
  | _ => false

/-- `NodeParameter` of workflow/schema.py (name, value, description,
required; the last two are never consulted by the executor). -/
structure NodeParameter where
  name : String
  value : PValue
deriving DecidableEq

/-- `WorkflowNode` of workflow/schema.py (fields the engine consults). -/
structure WorkflowNode where
  id : String
  service : String
  action : String
  parameters : List NodeParameter
  dependsOn : List String
deriving DecidableEq

/-- `Workflow` of workflow/schema.py (fields the engine consults;
`parameters` is the insertion-ordered global parameter dict). -/
structure Workflow where
  id : String
  name : String
  nodes : List WorkflowNode
  parameters : List (String × PValue)
deriving DecidableEq

/-- `FailureRule` of simulator/failures.py.  The probability is not
represented numerically: the random draw `random.random() <= probability`
is abstracted into the trigger oracle passed to the executor. -/
structure FailureRule where
  errorType : String
  message : String
deriving DecidableEq

/-- `FailureConfig`: a map from `"service.action"` keys to rules. -/
structure FailureConfig where
  rules : List (String × FailureRule)
deriving DecidableEq

/-- `FailureConfig.should_fail`: look up the `"service.action"` rule and
consult the random draw (the `trigger` oracle). -/
def shouldFail (fc : Option FailureConfig) (trigger : String → Bool)
    (service action : String) : Option FailureRule :=
  match fc with
  | none => none
  | some c =>
    let key := service ++ "." ++ action
    match c.rules.find? (fun kv => kv.1 = key) with
    | some kv => if trigger key then some kv.2 else none
    | none => none

/-- The literal two-character template opener of the Python source. -/
def tplOpen : String := "\x7b\x7b"

/-- The literal two-character template closer of the Python source. -/
def tplClose : String := "\x7d\x7d"

/-- Python `"\x7b\x7b" in value`: does the string contain the template
opener? -/
def hasTemplateMarker (s : String) : Bool :=
  pyContains s tplOpen

/-- The value a node's dispatch produced, as stored in
`WorkflowExecutor.node_outputs`: a result dict for a synchronous action,
or the un-awaited coroutine object returned by calling an `async def`
action without `await`. -/
inductive CallValue where
  | dict (d : Dict)
  | coroutine
deriving DecidableEq

/-- Substitution pass of `WorkflowExecutor._resolve_parameters` on one
string value that contains the template marker: first replace every
global `\x7b\x7bname\x7d\x7d`, then iterate the recorded node outputs and
replace every `\x7b\x7bnode_id.key\x7d\x7d`.  Iterating `outputs.items()`
on a stored coroutine object raises `AttributeError`, which the model
propagates as an error. -/
def resolveStr (gparams : List (String × PValue))
    (outputs : List (String × CallValue)) (s : String) :
    Except PyErr String :=
  let s1 := gparams.foldl
    (fun acc kv => pyReplace acc (tplOpen ++ kv.1 ++ tplClose) kv.2.toStr) s
  outputs.foldlM
    (fun acc no =>
      match no.2 with
      | .dict d =>
        .ok (d.foldl
          (fun a kv =>
            pyReplace a (tplOpen ++ no.1 ++ "." ++ kv.1 ++ tplClose) kv.2.toStr)
          acc)
      | .coroutine =>
        .error (.exc "coroutine object has no attribute items"))
    s1

/-- `WorkflowExecutor._resolve_parameters`: build the parameter dict for a
node, substituting global and upstream values into string values that
contain the template marker; non-matching values pass through unchanged. -/
def resolveParameters (node : WorkflowNode)
    (gparams : List (String × PValue))
    (outputs : List (String × CallValue)) : Except PyErr Dict :=
  node.parameters.foldlM
    (fun acc p =>
      match p.value with
      | .str s =>
        if hasTemplateMarker s then
          (resolveStr gparams outputs s).map
            (fun s2 => dictInsert acc p.name (.str s2))
        else
          .ok (dictInsert acc p.name (.str s))
      | v => .ok (dictInsert acc p.name v))
    []

/-- `SimulatorState` of simulator/state.py (the slack and google mappings
the slack service consults; the remaining maps are carried unchanged).
`slack_users` is a set of the values passed as `email`. -/
structure SimState where
  googleAccounts : List (String × PValue)
  slackChannels : List (String × List PValue)
  slackUsers : List PValue
deriving DecidableEq

/-- Python `set.add`: insert the value when it is not already present. -/
def setAdd (s : List PValue) (v : PValue) : List PValue :=
  if s.contains v then s else s ++ [v]

/-- Membership of a (possibly non-string) value among the string keys of a
dict: only an equal string key matches. -/
def keyMatches (v : PValue) (k : String) : Bool :=
  match v with
  | .str s => s = k
  | .intv _ => false

/-- An action method body: given the node id, the keyword parameter bag
and the simulator state, either return a result dict and the mutated
state, or raise. -/
abbrev ActionFn := String → Dict → SimState → Except PyErr (Dict × SimState)

/-- `SlackService.create_channel`. -/
def createChannel : ActionFn := fun _ params st =>
  let channelName := (dictGet params "channel_name" (.str "#general")).toStr
  let channels :=
    if st.slackChannels.any (fun kv => kv.1 = channelName) then
      st.slackChannels.map
        (fun kv => if kv.1 = channelName then (channelName, []) else kv)
    else st.slackChannels ++ [(channelName, [])]
  let st := { st with slackChannels := channels }
  .ok ([("channel", .str channelName), ("status", .str "created")], st)

/-- `SlackService.invite_user`: requires a provisioned google account for
the email, but only when the email is truthy (`if email and email not in
self.state.google_accounts`). -/
def inviteUser : ActionFn := fun _ params st =>
  let email := dictGet params "email" (.str "")
  let channelName := dictGet params "channel_name" (.str "#general")
  if email.truthy ∧ ¬ st.googleAccounts.any (fun kv => keyMatches email kv.1) then
    .error (.serviceError
      ("No Google account found for " ++ email.toStr ++ " — provision account first")
      "precondition_failed")
  else
    let st := { st with slackUsers := setAdd st.slackUsers email }
    let channels :=
      if st.slackChannels.any (fun kv => keyMatches channelName kv.1) then
        st.slackChannels.map
          (fun kv => if keyMatches channelName kv.1 then (kv.1, kv.2 ++ [email]) else kv)
      else st.slackChannels
    let st := { st with slackChannels := channels }
    .ok ([("email", email), ("channel", channelName), ("status", .str "invited")], st)

/-- `SlackService.send_message`. -/
def sendMessage : ActionFn := fun _ params st =>
  .ok ([("channel", dictGet params "channel_name" (.str "#general")),
        ("message", dictGet params "message" (.str "")),
        ("status", .str "sent")], st)

/-- An attribute the executor's `getattr(service, node.action)` can
resolve: a plain synchronous method or an `async def` coroutine
function (`BaseConnector` documents the latter for real connectors). -/
inductive PyCallable where
  | sync (f : ActionFn)
  | asyncFn (f : ActionFn)

/-- A service object: its action attributes, as resolved by `getattr`. -/
structure Service where
  actions : String → Option PyCallable

/-- The simulator slack service object. -/
def slackService : Service :=
  ⟨fun a =>
    if a = "create_channel" then some (.sync createChannel)
    else if a = "invite_user" then some (.sync inviteUser)
    else if a = "send_message" then some (.sync sendMessage)
    else none⟩

/-- Calling a resolved action attribute as `action_fn(node.id, **params)`
does for the Python call expression: a synchronous method runs its body
(every simulator action appends one success `TraceStep` via
`BaseService._log` before returning); calling a coroutine function builds
a coroutine object without executing the body, so nothing runs, nothing
is logged and no state changes. -/
def callPy (c : PyCallable) (service action nodeId : String) (params : Dict)
    (st : SimState) : Except PyErr (CallValue × SimState × List TraceStep) :=
  match c with
  | .sync f =>
    (f nodeId params st).map
      (fun r => (.dict r.1, r.2,
        [⟨nodeId, service, action, params, some r.1, .success, none⟩]))
  | .asyncFn _ => .ok (.coroutine, st, [])

/-- The `all_ids` list of `WorkflowExecutor._topological_sort`. -/
def allIds (wf : Workflow) : List String := wf.nodes.map (fun n => n.id)

/-- Pointwise update of a defaulted dict modelled as a total function. -/
def updateF {α : Type} (f : String → α) (k : String) (v : α) : String → α :=
  fun x => if x = k then v else f x

/-- One `dep` of the degree-map construction: append the node id to
`dependents[dep]` and increment `in_degree[node.id]`. -/
def registerDep (nid : String) (m : (String → Int) × (String → List String))
    (dep : String) : (String → Int) × (String → List String) :=
  (updateF m.1 nid (m.1 nid + 1), updateF m.2 dep (m.2 dep ++ [nid]))

/-- The inner `for dep in node.depends_on` loop of the map construction. -/
def registerNode (m : (String → Int) × (String → List String))
    (node : WorkflowNode) : (String → Int) × (String → List String) :=
  node.dependsOn.foldl (registerDep node.id) m

/-- The `in_degree` and `dependents` maps of
`WorkflowExecutor._topological_sort`: one pass over the nodes; for each
`dep` of each node, append the node id to `dependents[dep]` and increment
`in_degree[node.id]`.  `defaultdict(int)` / `defaultdict(list)` are
modelled as total functions defaulting to `0` / `[]` (the `setdefault`
call only installs the default and does not change any value read). -/
def buildMaps (nodes : List WorkflowNode) :
    (String → Int) × (String → List String) :=
  nodes.foldl registerNode (fun _ => 0, fun _ => [])

/-- One pass of the inner `for dependent in dependents[nid]` loop:
decrement the dependent's in-degree and enqueue it when the counter
reaches zero. -/
def decFold (deps : List String) (m : (String → Int) × List String) :
    (String → Int) × List String :=
  deps.foldl
    (fun acc dep =>
      let ind := updateF acc.1 dep (acc.1 dep - 1)
      if ind dep = 0 then (ind, acc.2 ++ [dep]) else (ind, acc.2))
    m

/-- The `while queue:` loop of Kahn's algorithm.  The Python loop has no
fuel; it runs at most `|all_ids| + |distinct ids|` iterations (each id is
enqueued at most once per initial occurrence plus at most once when its
counter crosses zero), so the fuel passed by `topologicalSort` is never
exhausted; the fuel-out branch returns the order built so far. -/
def kahnLoop (dependents : String → List String) :
    Nat → (String → Int) → List String → List String → List String
  | _, _, [], order => order
  | 0, _, _ :: _, order => order
  | fuel + 1, ind, nid :: queue, order =>
    let step := decFold (dependents nid) (ind, queue)
    kahnLoop dependents fuel step.1 step.2 (order ++ [nid])

/-- `WorkflowExecutor._topological_sort`: build the degree maps, seed the
queue with the zero-in-degree ids, run Kahn's loop, and raise the
cycle-detected `ValueError` when the order misses nodes. -/
def topologicalSort (wf : Workflow) : Except PyErr (List String) :=
  let maps := buildMaps wf.nodes
  let queue := (allIds wf).filter (fun nid => maps.1 nid = 0)
  let order := kahnLoop maps.2 (2 * (allIds wf).length + 1) maps.1 queue []
  if order.length = (allIds wf).length then .ok order
  else .error (.cycleDetected ((allIds wf).filter (fun id => ¬ order.contains id)))

/-- `node_map[node_id]` lookup (`node_map = {node.id: node for node in
workflow.nodes}`: on duplicate ids the last node wins). -/
def lookupNode (wf : Workflow) (nid : String) : Option WorkflowNode :=
  (wf.nodes.reverse).find? (fun n => n.id = nid)

/-- `WorkflowExecutor._execute_node`: resolve the service from the map,
resolve the action attribute, resolve the parameters, and call the action
as `action_fn(node.id, **params)` — with no `await`. -/
def executeNode (services : String → Option Service) (node : WorkflowNode)
    (gparams : List (String × PValue)) (outputs : List (String × CallValue))
    (st : SimState) : Except PyErr (CallValue × SimState × List TraceStep) :=
  match services node.service with
  | none => .error (.serviceError ("Unknown service: " ++ node.service) "unknown_service")
  | some svc =>
    match svc.actions node.action with
    | none =>
      .error (.serviceError
        ("Unknown action " ++ node.action ++ " for service " ++ node.service)
        "unknown_action")
    | some callable =>
      match resolveParameters node gparams outputs with
      | .error e => .error e
      | .ok params => callPy callable node.service node.action node.id params st

/-- The executor's per-run mutable state: the simulator state, the shared
trace step list, the failed/skipped id sets, the three counters, the
dependency-violation list and `node_outputs`. -/
structure ExecSt where
  simState : SimState
  steps : List TraceStep
  failedNodes : List String
  skippedNodes : List String
  succCount : Nat
  failCount : Nat
  skipCount : Nat
  violations : List String
  outputs : List (String × CallValue)
deriving DecidableEq

/-- One iteration of the `for node_id in order:` loop of
`WorkflowExecutor.execute`.  An uncaught exception (a raise out of
`_resolve_parameters` on a non-iterable stored output) aborts the run
carrying the trace as mutated so far. -/
def execStep (wf : Workflow) (services : String → Option Service)
    (fc : Option FailureConfig) (trigger : String → Bool)
    (st : ExecSt) (nid : String) : Except (PyErr × List TraceStep) ExecSt :=
  match lookupNode wf nid with
  | none => .error (.exc ("KeyError: " ++ nid), st.steps)
  | some node =>
    let upstream := node.dependsOn.filter
      (fun d => st.failedNodes.contains d || st.skippedNodes.contains d)
    if upstream ≠ [] then
      .ok { st with
        skippedNodes := st.skippedNodes ++ [nid],
        skipCount := st.skipCount + 1,
        steps := st.steps ++
          [⟨nid, node.service, node.action, [], none, .skipped,
            some ("Skipped due to upstream failure: " ++ String.intercalate ", " upstream)⟩] }
    else
      match shouldFail fc trigger node.service node.action with
      | some rule =>
        match resolveParameters node wf.parameters st.outputs with
        | .error e => .error (e, st.steps)
        | .ok params =>
          .ok { st with
            failedNodes := st.failedNodes ++ [nid],
            failCount := st.failCount + 1,
            steps := st.steps ++
              [⟨nid, node.service, node.action, params, none, .failed,
                some ("[" ++ rule.errorType ++ "] " ++ rule.message)⟩] }
      | none =>
        match executeNode services node wf.parameters st.outputs st.simState with
        | .ok r =>
          .ok { st with
            simState := r.2.1,
            steps := st.steps ++ r.2.2,
            succCount := st.succCount + 1,
            outputs := st.outputs ++ [(nid, r.1)] }
        | .error e =>
          let viol :=
            if e.isServiceError then st.violations ++ [nid ++ ": " ++ e.toMessage]
            else st.violations
          match resolveParameters node wf.parameters st.outputs with
          | .error e2 => .error (e2, st.steps)
          | .ok params =>
            .ok { st with
              failedNodes := st.failedNodes ++ [nid],
              failCount := st.failCount + 1,
              violations := viol,
              steps := st.steps ++
                [⟨nid, node.service, node.action, params, none, .failed,
                  some e.toMessage⟩] }

/-- The `for node_id in order:` loop. -/
def runNodes (wf : Workflow) (services : String → Option Service)
    (fc : Option FailureConfig) (trigger : String → Bool) :
    List String → ExecSt → Except (PyErr × List TraceStep) ExecSt
  | [], st => .ok st
  | nid :: rest, st =>
    match execStep wf services fc trigger st nid with
    | .error e => .error e
    | .ok st2 => runNodes wf services fc trigger rest st2

/-- `ExecutionReport` of workflow/report.py (trace flattened to its step
list; timestamps dropped). -/
structure ExecutionReport where
  workflowId : String
  workflowName : String
  totalSteps : Nat
  successful : Nat
  failed : Nat
  skipped : Nat
  traceSteps : List TraceStep
  dependencyViolations : List String
deriving DecidableEq

/-- `WorkflowExecutor.execute`: topologically sort, run the per-node
loop, and assemble the `ExecutionReport`.  A raise carries the trace step
list at the moment of the raise (the caller shares the mutable trace);
the cycle-detected raise happens before any step is appended. -/
def execute (wf : Workflow) (services : String → Option Service)
    (fc : Option FailureConfig) (trigger : String → Bool)
    (sim0 : SimState) (trace0 : List TraceStep) :
    Except (PyErr × List TraceStep) ExecutionReport :=
  match topologicalSort wf with
  | .error e => .error (e, trace0)
  | .ok order =>
    match runNodes wf services fc trigger order ⟨sim0, trace0, [], [], 0, 0, 0, [], []⟩ with
    | .error e => .error e
    | .ok st =>
      .ok ⟨wf.id, wf.name, wf.nodes.length, st.succCount, st.failCount,
           st.skipCount, st.steps, st.violations⟩

/-- A stored workflow file: its filename and the workflow id / version
recorded in its JSON content. -/
structure StoredFile where
  filename : String
  workflowId : String
  version : Nat
deriving DecidableEq

/-- Insert into a list kept sorted in descending string order. -/
def insertDescending (x : StoredFile) : List StoredFile → List StoredFile
  | [] => [x]
  | y :: ys =>
    if strLtB y.filename x.filename then x :: y :: ys
    else y :: insertDescending x ys

/-- Python `sorted(paths, reverse=True)` over the filenames of one team
directory: descending lexicographic string order. -/
def sortDescending (files : List StoredFile) : List StoredFile :=
  files.foldr insertDescending []

/-- `WorkflowStore.load`: glob `<workflow_id>-v*.json`, sort the matches
in descending filename order, and parse the first.  The team directory is
modelled as the list of its stored files. -/
def storeLoad (files : List StoredFile) (workflowId : String) :
    Option StoredFile :=
  let found := files.filter
    (fun f => pyStartsWith f.filename (workflowId ++ "-v") ∧
              pyEndsWith f.filename ".json")
  (sortDescending found).head?

/-- `WorkflowStore.list_by_team`: enumerate `*.json` in descending
filename order and keep the first occurrence of each workflow id. -/
def listByTeam (files : List StoredFile) : List StoredFile :=
  let sorted := sortDescending (files.filter (fun f => pyEndsWith f.filename ".json"))
  (sorted.foldl
    (fun acc f =>
      if (acc.2.contains f.workflowId : Bool) then acc
      else (acc.1 ++ [f], acc.2 ++ [f.workflowId]))
    (([] : List StoredFile), ([] : List String))).1

/-- A generated connector source file as the validator observes it: the
outcome of reading it, of `ast.parse`, the structural facts the AST stage
checks, and whether executing the module body would raise (a
failed import or a decorator-evaluation error). -/
structure ConnectorFile where
  readable : Bool
  parses : Bool
  hasExpectedClass : Bool
  hasServiceNameAttr : Bool
  methodNames : List String
  bodyRaisesOnExec : Bool
deriving DecidableEq

/-- The child process run by stage 2 of `validate_connector_file`
executes `spec_from_file_location` and `module_from_spec` but — per the
source's own comment — never calls `exec_module`, so the module body is
not executed and the child exits 0 whenever the file is readable,
whatever the body would do. -/
def dryImportReturncode (f : ConnectorFile) : Int :=
  if f.readable then 0 else 1

/-- `validate_connector_file` of connectors/builder/validator.py: stage 1
AST checks, then, only when they pass, the subprocess dry-import. -/
def validateConnectorFile (f : ConnectorFile) (serviceName : String)
    (requiredActions : List String) : List String :=
  if ¬ f.readable then ["Cannot read file"]
  else if ¬ f.parses then ["SyntaxError"]
  else
    let expectedClass := serviceName.capitalize ++ "Connector"
    if ¬ f.hasExpectedClass then
      ["Class " ++ expectedClass ++ " not found"]
    else
      let errors :=
        (if ¬ f.hasServiceNameAttr then
          ["Class " ++ expectedClass ++ " is missing a service_name class attribute"]
        else []) ++
        (requiredActions.filter (fun a => ¬ f.methodNames.contains a)).map
          (fun a => "Required method " ++ a ++ " not found in " ++ expectedClass) ++
        (["from_settings", "is_configured"].filter
          (fun cm => ¬ f.methodNames.contains cm)).map
          (fun cm => "Required classmethod " ++ cm ++ " not found in " ++ expectedClass)
      if errors ≠ [] then errors
      else if dryImportReturncode f ≠ 0 then ["Module-level error"]
      else []

/-- `_SAFE_ENV_KEYS` of agents/tools.py. -/
def SAFE_ENV_KEYS : List String :=
  ["PATH", "HOME", "LANG", "TERM", "TMPDIR", "USER", "LOGNAME", "SHELL"]

/-- `_SAFE_ENV_PREFIXES` of agents/tools.py. -/
def SAFE_ENV_PREFIXES : List String := ["LC_"]

/-- `_safe_env`: keep exactly the host variables whose name is
allowlisted or carries an allowlisted name beginning.  The host
environment is the (unique-keyed) list of its name/value pairs. -/
def safeEnv (env : List (String × String)) : List (String × String) :=
  env.filter
    (fun kv => SAFE_ENV_KEYS.contains kv.1 ||
               SAFE_ENV_PREFIXES.any (fun p => pyStartsWith kv.1 p))

/-- The environment `_run_command_sync` hands to `subprocess.Popen`
(`env=_safe_env()`). -/
def runCommandEnv (hostEnv : List (String × String)) : List (String × String) :=
  safeEnv hostEnv

/-- An entry of the Services map assembled by `create_service_layer`: a
simulator service instance, a real connector instance, or the shared
`httpx.AsyncClient`. -/
inductive SvcEntry where
  | sim (name : String)
  | connector (name : String)
  | httpClient
deriving DecidableEq

/-- The facts about the connector registry and settings that
`create_service_layer` consults: the names `registry.list_available()`
reports, whether `registry.get(name)` yields an instance, and whether
that instance `is_configured(settings)`. -/
structure ConnEnv where
  available : List String
  hasConnector : String → Bool
  configured : String → Bool

/-- The service names of `create_simulator()` in insertion order. -/
def simServiceNames : List String := ["hr", "google", "slack", "jira", "github"]

/-- Python dict assignment on the Services map. -/
def svcDictSet (d : List (String × SvcEntry)) (k : String) (v : SvcEntry) :
    List (String × SvcEntry) :=
  if d.any (fun kv => kv.1 = k) then
    d.map (fun kv => if kv.1 = k then (k, v) else kv)
  else
    d ++ [(k, v)]

/-- Python dict lookup `d.get(k)` on the Services map. -/
def svcDictGet (d : List (String × SvcEntry)) (k : String) : Option SvcEntry :=
  (d.find? (fun kv => kv.1 = k)).map (fun kv => kv.2)

/-- Insert into a list kept sorted in ascending string order, dropping
duplicates (`sorted` over a `set`). -/
def insertAscendingDedup (x : String) : List String → List String
  | [] => [x]
  | y :: ys =>
    if x = y then y :: ys
    else if strLtB x y then x :: y :: ys
    else y :: insertAscendingDedup x ys

/-- `sorted(set(xs))`. -/
def sortedSet (xs : List String) : List String :=
  xs.foldr insertAscendingDedup []

/-- `create_service_layer` of connectors/__init__.py, flattened to the
Services map it returns.  In `"simulator"` mode the simulator map is
returned as is; in every other mode each sorted service name resolves to
the configured connector (a connector-only name is exposed even when
unconfigured), else the simulator service, and finally the shared HTTP
client is stashed under `"_http_client"`. -/
def createServiceLayer (mode : String) (env : ConnEnv) :
    List (String × SvcEntry) :=
  if mode = "simulator" then
    simServiceNames.map (fun n => (n, SvcEntry.sim n))
  else
    let names := sortedSet (simServiceNames ++ env.available)
    let services := names.foldl
      (fun acc name =>
        let simPresent := simServiceNames.contains name
        if env.hasConnector name ∧ (env.configured name ∨ ¬ simPresent) then
          acc ++ [(name, SvcEntry.connector name)]
        else if simPresent then
          acc ++ [(name, SvcEntry.sim name)]
        else acc)
      []
    svcDictSet services "_http_client" SvcEntry.httpClient

/-- The `depends_on` list of the node carrying a given id in a node list
(empty for a foreign id). -/
def depsOfNodes (nodes : List WorkflowNode) (nid : String) : List String :=
  match nodes.find? (fun n => n.id = nid) with
  | some n => n.dependsOn
  | none => []

/-- The `depends_on` list of the workflow node carrying a given id
(empty for a foreign id). -/
def depsOf (wf : Workflow) (nid : String) : List String :=
  depsOfNodes wf.nodes nid

/-- The dependency edge of the workflow's `depends_on` graph: `a` is a
direct dependency of node `b`. -/
def depEdge (wf : Workflow) (a b : String) : Prop :=
  ∃ node ∈ wf.nodes, node.id = b ∧ a ∈ node.dependsOn

/-- The workflow's `depends_on` graph contains a cycle. -/
def hasCycle (wf : Workflow) : Prop :=
  ∃ n, Relation.TransGen (depEdge wf) n n

/-- Every `depends_on` entry of every node names a node of the workflow
(the data-model invariant of the spec). -/
def validDeps (wf : Workflow) : Prop :=
  ∀ node ∈ wf.nodes, ∀ d ∈ node.dependsOn, d ∈ allIds wf

/-- A node id list is in topological order: each listed node's direct
dependencies appear strictly before it. -/
def topoSorted (wf : Workflow) (order : List String) : Prop :=
  ∀ b pre post, order = pre ++ b :: post → ∀ d, depEdge wf d b → d ∈ pre

/-- The trace records a success step for a node id. -/
def recordedSuccess (steps : List TraceStep) (n : String) : Prop :=
  ∃ s ∈ steps, s.nodeId = n ∧ s.status = StepStatus.success

/-- Every action of every service in the map is a plain synchronous
method (true of the whole simulator service layer). -/
def syncServices (services : String → Option Service) : Prop :=
  ∀ s svc, services s = some svc →
    ∀ a c, svc.actions a = some c → ∃ f, c = PyCallable.sync f

/-! ## Concrete instances used by witnesses and counterexamples -/

/-- A node whose two parameters are templates over a global and an
upstream output. -/
def nodeC4 : WorkflowNode :=
  ⟨"n2", "slack", "send_message",
   [⟨"message", PValue.str (tplOpen ++ "greeting" ++ tplClose)⟩,
    ⟨"channel_name", PValue.str (tplOpen ++ "up.chan" ++ tplClose)⟩], ["up"]⟩

/-- Globals whose substituted value itself still contains a template. -/
def gparamsC4 : List (String × PValue) :=
  [("greeting", PValue.str (tplOpen ++ "still-a-template" ++ tplClose))]

/-- Recorded upstream outputs whose substituted value contains the
template opener. -/
def outputsC4 : List (String × CallValue) :=
  [("up", CallValue.dict [("chan", PValue.str ("#general " ++ tplOpen))])]

/-- A generated connector file that passes every AST-stage check but
whose module body raises when executed (for example a failing
top-level import statement). -/
def badImportFile : ConnectorFile :=
  ⟨true, true, true, true, ["do_thing", "from_settings", "is_configured"], true⟩

/-- A team directory holding versions 9 and 10 of the same workflow. -/
def filesC8 : List StoredFile :=
  [⟨"format-check-v9.json", "format-check", 9⟩,
   ⟨"format-check-v10.json", "format-check", 10⟩]

/-- An action body shared by the async/sync contrast below. -/
def asyncProvision : ActionFn := fun _ _ st =>
  .ok ([("email", PValue.str "alice.chen@company.com"),
        ("status", PValue.str "provisioned")], st)

/-- A connector-style service whose action is an `async def` coroutine
function. -/
def googleAsyncService : Service :=
  ⟨fun a => if a = "provision_account" then some (.asyncFn asyncProvision) else none⟩

/-- The same service with a synchronous action of the same body. -/
def googleSyncService : Service :=
  ⟨fun a => if a = "provision_account" then some (.sync asyncProvision) else none⟩

/-- A one-node workflow dispatching to `google.provision_account`. -/
def wfOneGoogle : Workflow :=
  ⟨"wf-google", "Provision", [⟨"n1", "google", "provision_account", [], []⟩], []⟩

/-- A services map binding only `google`. -/
def servicesWith (svc : Service) : String → Option Service :=
  fun s => if s = "google" then some svc else none

/-- A fresh simulator state. -/
def emptySim : SimState := ⟨[], [], []⟩

/-- The executor state at the start of a run over a fresh trace. -/
def initExecSt : ExecSt := ⟨emptySim, [], [], [], 0, 0, 0, [], []⟩

/-- A one-node workflow naming a service absent from the services map. -/
def wfUnknownService : Workflow :=
  ⟨"wf-c2", "Unknown service", [⟨"n1", "nosuch", "do_it", [], []⟩], []⟩

/-- A one-node workflow naming an action the slack service lacks. -/
def wfUnknownAction : Workflow :=
  ⟨"wf-ua", "Unknown action", [⟨"n1", "slack", "nop", [], []⟩], []⟩

/-- A services map binding only the simulator slack service. -/
def slackOnlyServices : String → Option Service :=
  fun s => if s = "slack" then some slackService else none

/-- A one-node workflow whose single dependency names no node: the
executor raises the cycle-detected error although the graph is acyclic. -/
def wfDangling : Workflow :=
  ⟨"wf-d", "Dangling", [⟨"a", "hr", "create_employee", [], ["ghost"]⟩], []⟩


/-- Invariant of the Kahn loop state. -/
structure KInv (wf : Workflow) (ind : String → Int)
    (queue order : List String) : Prop where
  nodup : (order ++ queue).Nodup
  mem_ids : ∀ x ∈ order ++ queue, x ∈ allIds wf
  counters : ∀ id ∈ allIds wf,
    ind id = (((depsOf wf id).filter (fun d => decide (d ∉ order))).length : Int)
  enq_iff : ∀ id ∈ allIds wf,
    (id ∈ order ∨ id ∈ queue) ↔ (∀ d ∈ depsOf wf id, d ∈ order)
  topo : ∀ b pre post, order = pre ++ b :: post → ∀ d ∈ depsOf wf b, d ∈ pre

/-- Invariant of the executor loop after processing the prefix `done` of
the topological order. -/
structure EInv (wf : Workflow) (done : List String) (st : ExecSt) : Prop where
  succ_iff : ∀ n, recordedSuccess st.steps n ↔ n ∈ st.outputs.map Prod.fst
  succ_deps : ∀ n ∈ st.outputs.map Prod.fst, ∀ d ∈ depsOf wf n,
    d ∈ st.outputs.map Prod.fst
  covered : ∀ x ∈ done,
    x ∈ st.outputs.map Prod.fst ∨ x ∈ st.failedNodes ∨ x ∈ st.skippedNodes

/-- A two-node acyclic workflow: `b` depends on `a`. -/
def wfChain : Workflow :=
  ⟨"wf-chain", "Chain",
   [⟨"a", "slack", "create_channel", [], []⟩,
    ⟨"b", "slack", "send_message", [], ["a"]⟩], []⟩

/-- The report `execute` produces for `wfChain` over the slack service. -/
def reportChain : ExecutionReport :=
  ⟨"wf-chain", "Chain", 2, 2, 0, 0,
   [⟨"a", "slack", "create_channel", [],
     some [("channel", PValue.str "#general"), ("status", PValue.str "created")],
     StepStatus.success, none⟩,
    ⟨"b", "slack", "send_message", [],
     some [("channel", PValue.str "#general"), ("message", PValue.str ""),
           ("status", PValue.str "sent")],
     StepStatus.success, none⟩], []⟩

/-- A two-node workflow whose first node resolves to an async connector
action and whose second, synchronous node depends on it. -/
def wfAsyncChain : Workflow :=
  ⟨"wf-async-chain", "Async chain",
   [⟨"n1", "google", "provision_account", [], []⟩,
    ⟨"n2", "slack", "create_channel", [], ["n1"]⟩], []⟩

/-- A services map mixing an async connector-style service with the
synchronous simulator slack service (the hybrid/real-mode shape). -/
def mixedServices : String → Option Service :=
  fun s =>
    if s = "google" then some googleAsyncService
    else if s = "slack" then some slackService
    else none

/-- The report `execute` produces for `wfAsyncChain`: both nodes counted
successful, but only `n2` carries a success trace step — the async `n1`
body never ran. -/
def reportAsyncChain : ExecutionReport :=
  ⟨"wf-async-chain", "Async chain", 2, 2, 0, 0,
   [⟨"n2", "slack", "create_channel", [],
     some [("channel", PValue.str "#general"), ("status", PValue.str "created")],
     StepStatus.success, none⟩], []⟩

/-! ## Supporting lemmas and claim theorems -/


/-- C4: parameter resolution is idempotent — resolving a node's
parameters a second time against the same workflow global parameter map
and the same recorded upstream node outputs yields exactly the dictionary
of the first resolution (`_resolve_parameters` reads its inputs and
mutates nothing), including when a substituted value contains template
markers. -/
theorem resolve_parameters_idempotent (node : WorkflowNode)
    (gparams : List (String × PValue))
    (o1 o2 : List (String × CallValue)) (h : o1 = o2) :
    resolveParameters node gparams o1 = resolveParameters node gparams o2 := by
  rw [h]

/-- Witness for `resolve_parameters_idempotent` at inputs whose
substituted global and upstream values themselves contain the template
opener. -/
theorem resolve_parameters_idempotent_witness :
    outputsC4 = outputsC4 ∧
    resolveParameters nodeC4 gparamsC4 outputsC4 =
      Except.ok [("message", PValue.str (tplOpen ++ "still-a-template" ++ tplClose)),
                 ("channel_name", PValue.str ("#general " ++ tplOpen))] ∧
    resolveParameters nodeC4 gparamsC4 outputsC4 =
      resolveParameters nodeC4 gparamsC4 outputsC4 :=
  ⟨rfl, rfl, resolve_parameters_idempotent nodeC4 gparamsC4 outputsC4 outputsC4 rfl⟩

/-- C9: a name/value pair reaches the environment `run_command` hands to
the subprocess exactly when it is a host variable whose name is in the
allowlist or starts with an allowlisted name beginning — every other
variable, credentials included, is absent. -/
theorem run_command_env_allowlisted (env : List (String × String)) (k v : String) :
    (k, v) ∈ runCommandEnv env ↔
      ((k, v) ∈ env ∧
       (SAFE_ENV_KEYS.contains k ||
        SAFE_ENV_PREFIXES.any (fun p => pyStartsWith k p)) = true) := by
  simp [runCommandEnv, safeEnv, List.mem_filter]

/-- C7: a generated connector file that passes the AST structure checks
but whose module body raises on execution is reported VALID (empty error
list) — the dry-import subprocess never calls `exec_module`, so
module-level errors are not caught, contrary to the claim and to the
validator's own docstring. -/
theorem validator_misses_module_level_errors :
    badImportFile.bodyRaisesOnExec = true ∧
    validateConnectorFile badImportFile "acme" ["do_thing"] = [] := by
  exact ⟨rfl, rfl⟩

/-- C8: with versions 9 and 10 of the same workflow stored,
`WorkflowStore.load` returns version 9 and `list_by_team` retains the
version-9 entry, because `sorted(..., reverse=True)` compares filenames
lexicographically and `"-v9.json" > "-v10.json"` — contrary to the claim
and to the methods' own docstrings ("latest version"). -/
theorem store_load_picks_v9_over_v10 :
    storeLoad filesC8 "format-check" =
      some ⟨"format-check-v9.json", "format-check", 9⟩ ∧
    listByTeam filesC8 = [⟨"format-check-v9.json", "format-check", 9⟩] := by
  exact ⟨rfl, rfl⟩

/-- C5 counterexample: `invite_user` with the empty-string email and no
provisioned google account returns a success result (`status =
"invited"`) instead of raising — the guard `if email and ...` lets every
falsy email through. -/
theorem invite_user_empty_email_succeeds :
    inviteUser "n1" [("email", PValue.str ""), ("channel_name", PValue.str "#general")]
      ⟨[], [], []⟩ =
      Except.ok ([("email", PValue.str ""), ("channel", PValue.str "#general"),
                  ("status", PValue.str "invited")],
                 ⟨[], [], [PValue.str ""]⟩) := rfl

/-- C5 amended: `invite_user` raises the precondition-failed service
error exactly for truthy (in particular non-empty) email values that do
not identify a provisioned google account; falsy emails bypass the
check. -/
theorem invite_user_requires_account (nodeId : String) (params : Dict) (st : SimState)
    (h1 : (dictGet params "email" (PValue.str "")).truthy = true)
    (h2 : st.googleAccounts.any
      (fun kv => keyMatches (dictGet params "email" (PValue.str "")) kv.1) = false) :
    inviteUser nodeId params st =
      Except.error (PyErr.serviceError
        ("No Google account found for " ++
          (dictGet params "email" (PValue.str "")).toStr ++
          " — provision account first")
        "precondition_failed") := by
  unfold inviteUser
  rw [if_pos]
  constructor
  · exact h1
  · simp [h2]

/-- Witness for `invite_user_requires_account` at a concrete non-empty
unprovisioned email. -/
theorem invite_user_requires_account_witness :
    ((dictGet [("email", PValue.str "bob@x.io")] "email" (PValue.str "")).truthy = true ∧
     (SimState.mk [] [] []).googleAccounts.any
       (fun kv => keyMatches (dictGet [("email", PValue.str "bob@x.io")] "email" (PValue.str "")) kv.1) = false) ∧
    inviteUser "n1" [("email", PValue.str "bob@x.io")] ⟨[], [], []⟩ =
      Except.error (PyErr.serviceError
        ("No Google account found for bob@x.io — provision account first")
        "precondition_failed") :=
  ⟨⟨rfl, rfl⟩, invite_user_requires_account "n1" [("email", PValue.str "bob@x.io")] ⟨[], [], []⟩ rfl rfl⟩

/-- C1: dispatching a node whose resolved action is an `async def`
coroutine function, the executor records the un-awaited coroutine object
as the node's output, counts the node successful, and never executes the
action body (no trace step, no result dict) — while the same body as a
synchronous action yields the result dict and a success step.  The claim
(and `BaseConnector`'s docstring) require the coroutine to be awaited. -/
theorem executor_records_unawaited_coroutine :
    runNodes wfOneGoogle (servicesWith googleAsyncService) none (fun _ => false)
      ["n1"] initExecSt =
      Except.ok { initExecSt with succCount := 1,
                                  outputs := [("n1", CallValue.coroutine)] } ∧
    execute wfOneGoogle (servicesWith googleAsyncService) none (fun _ => false)
      emptySim [] =
      Except.ok ⟨"wf-google", "Provision", 1, 1, 0, 0, [], []⟩ ∧
    execute wfOneGoogle (servicesWith googleSyncService) none (fun _ => false)
      emptySim [] =
      Except.ok ⟨"wf-google", "Provision", 1, 1, 0, 0,
        [⟨"n1", "google", "provision_account", [],
          some [("email", PValue.str "alice.chen@company.com"),
                ("status", PValue.str "provisioned")], .success, none⟩], []⟩ := by
  exact ⟨rfl, rfl, rfl⟩

/-- C2 counterexample: a node that fails with the `unknown_service` error
kind does contribute a dependency-violation entry — the executor appends
one for every `ServiceError`, whatever its kind. -/
theorem unknown_service_adds_dependency_violation :
    (execute wfUnknownService (fun _ => none) none (fun _ => false) emptySim []).map
      (fun r => r.dependencyViolations) =
      Except.ok ["n1: Unknown service: nosuch"] ∧
    executeNode (fun _ => none) ⟨"n1", "nosuch", "do_it", [], []⟩ [] [] emptySim =
      Except.error (PyErr.serviceError "Unknown service: nosuch" "unknown_service") := by
  exact ⟨rfl, rfl⟩

/-- Helper: reading back the key just assigned into the Services map. -/
theorem svcDictGet_set_self (d : List (String × SvcEntry)) (k : String) (v : SvcEntry) :
    svcDictGet (svcDictSet d k v) k = some v := by
  unfold svcDictGet svcDictSet
  split
  · rename_i hany
    induction d with
    | nil => simp at hany
    | cons a rest ih =>
      by_cases ha : a.1 = k
      · simp [ha, List.find?_cons_of_pos]
      · rw [List.map_cons, if_neg ha, List.find?_cons_of_neg _ (by simpa using ha)]
        apply ih
        simpa [List.any_cons, ha] using hany
  · rename_i hany
    induction d with
    | nil => simp
    | cons a rest ih =>
      have ha : ¬ (a.1 = k) := by
        intro hk
        exact hany (by simp [List.any_cons, hk])
      rw [List.cons_append, List.find?_cons_of_neg _ (by simpa using ha)]
      apply ih
      intro hc
      exact hany (by simp [List.any_cons]; right; simpa using hc)

/-- C10: in hybrid or real mode the Services map returned by
`create_service_layer` binds the extra key `"_http_client"` to the shared
HTTP client; in simulator mode the map is exactly the five simulator
services and carries no such key. -/
theorem service_layer_http_client_key (mode : String) (env : ConnEnv)
    (h : mode = "hybrid" ∨ mode = "real") :
    svcDictGet (createServiceLayer mode env) "_http_client" =
      some SvcEntry.httpClient ∧
    createServiceLayer "simulator" env =
      simServiceNames.map (fun n => (n, SvcEntry.sim n)) ∧
    svcDictGet (createServiceLayer "simulator" env) "_http_client" = none := by
  have hmode : mode ≠ "simulator" := by
    rcases h with h | h <;> subst h <;> decide
  refine ⟨?_, rfl, rfl⟩
  unfold createServiceLayer
  rw [if_neg hmode]
  apply svcDictGet_set_self

/-- Witness for `service_layer_http_client_key` in hybrid mode with an
empty custom registry. -/
theorem service_layer_http_client_key_witness :
    ("hybrid" = "hybrid" ∨ "hybrid" = "real") ∧
    (svcDictGet (createServiceLayer "hybrid" ⟨[], fun _ => false, fun _ => false⟩)
        "_http_client" = some SvcEntry.httpClient ∧
     createServiceLayer "simulator" ⟨[], fun _ => false, fun _ => false⟩ =
       simServiceNames.map (fun n => (n, SvcEntry.sim n)) ∧
     svcDictGet (createServiceLayer "simulator" ⟨[], fun _ => false, fun _ => false⟩)
        "_http_client" = none) :=
  ⟨Or.inl rfl,
   service_layer_http_client_key "hybrid" ⟨[], fun _ => false, fun _ => false⟩ (Or.inl rfl)⟩

/-- C2 amended: one executor step extends the dependency-violations list
with the entry `"node: message"` exactly when the node was dispatched and
the dispatch raised a typed `ServiceError` — of any error kind, including
`unknown_service` and `unknown_action`; skipped nodes, injected failures
and non-`ServiceError` exceptions contribute nothing. -/
theorem exec_step_violation_entries (wf : Workflow) (services : String → Option Service)
    (fc : Option FailureConfig) (trigger : String → Bool)
    (st st2 : ExecSt) (nid : String)
    (h : execStep wf services fc trigger st nid = .ok st2) :
    st2.violations = st.violations ++
      (match lookupNode wf nid with
       | none => []
       | some node =>
         if node.dependsOn.filter
             (fun d => st.failedNodes.contains d || st.skippedNodes.contains d) ≠ [] then []
         else
           match shouldFail fc trigger node.service node.action with
           | some _ => []
           | none =>
             match executeNode services node wf.parameters st.outputs st.simState with
             | .ok _ => []
             | .error e =>
               if e.isServiceError then [nid ++ ": " ++ e.toMessage] else []) := by
  unfold execStep at h
  cases hl : lookupNode wf nid with
  | none => rw [hl] at h; exact absurd h (by simp)
  | some node =>
    simp only [hl] at h ⊢
    by_cases hup : node.dependsOn.filter
        (fun d => st.failedNodes.contains d || st.skippedNodes.contains d) ≠ []
    · rw [if_pos hup] at h
      simp only [Except.ok.injEq] at h
      subst h
      rw [if_pos hup]
      simp
    · rw [if_neg hup] at h
      cases hsf : shouldFail fc trigger node.service node.action with
      | some rule =>
        rw [hsf] at h
        cases hrp : resolveParameters node wf.parameters st.outputs with
        | error e => rw [hrp] at h; exact absurd h (by simp)
        | ok params =>
          rw [hrp] at h
          simp only [Except.ok.injEq] at h
          subst h
          rw [if_neg hup]
          simp
      | none =>
        rw [hsf] at h
        cases hex : executeNode services node wf.parameters st.outputs st.simState with
        | ok r =>
          rw [hex] at h
          simp only [Except.ok.injEq] at h
          subst h
          rw [if_neg hup]
          simp
        | error e =>
          rw [hex] at h
          cases hrp : resolveParameters node wf.parameters st.outputs with
          | error e2 => rw [hrp] at h; exact absurd h (by simp)
          | ok params =>
            rw [hrp] at h
            simp only [Except.ok.injEq] at h
            subst h
            rw [if_neg hup]
            by_cases hse : e.isServiceError
            · simp [hse]
            · simp [hse]

/-- Witness for `exec_step_violation_entries`: a step dispatching an
unknown action on the slack service appends exactly its entry. -/
theorem exec_step_violation_entries_witness :
    (execStep wfUnknownAction slackOnlyServices none (fun _ => false) initExecSt "n1" =
      Except.ok { initExecSt with
        failedNodes := ["n1"], failCount := 1,
        violations := ["n1: Unknown action nop for service slack"],
        steps := [⟨"n1", "slack", "nop", [], none, .failed,
          some "Unknown action nop for service slack"⟩] }) ∧
    ({ initExecSt with
        failedNodes := ["n1"], failCount := 1,
        violations := ["n1: Unknown action nop for service slack"],
        steps := [⟨"n1", "slack", "nop", [], none, .failed,
          some "Unknown action nop for service slack"⟩] } : ExecSt).violations =
      initExecSt.violations ++
      (match lookupNode wfUnknownAction "n1" with
       | none => []
       | some node =>
         if node.dependsOn.filter
             (fun d => initExecSt.failedNodes.contains d ||
                       initExecSt.skippedNodes.contains d) ≠ [] then []
         else
           match shouldFail none (fun _ => false) node.service node.action with
           | some _ => []
           | none =>
             match executeNode slackOnlyServices node wfUnknownAction.parameters
                 initExecSt.outputs initExecSt.simState with
             | .ok _ => []
             | .error e =>
               if e.isServiceError then ["n1" ++ ": " ++ e.toMessage] else []) :=
  ⟨rfl, exec_step_violation_entries wfUnknownAction slackOnlyServices none (fun _ => false)
    initExecSt _ "n1" rfl⟩



theorem updateF_self {α : Type} (f : String → α) (k : String) (v : α) :
    updateF f k v k = v := by
  simp [updateF]

theorem updateF_ne {α : Type} (f : String → α) (k x : String) (v : α)
    (h : x ≠ k) : updateF f k v x = f x := by
  simp [updateF, h]

theorem registerNode_fst (node : WorkflowNode)
    (m : (String → Int) × (String → List String)) (x : String) :
    (registerNode m node).1 x =
      m.1 x + (if node.id = x then (node.dependsOn.length : Int) else 0) := by
  unfold registerNode
  induction node.dependsOn generalizing m with
  | nil => simp
  | cons d rest ih =>
    rw [List.foldl_cons, ih]
    by_cases hx : node.id = x
    · subst hx
      simp [registerDep, updateF_self]
      omega
    · simp [registerDep, hx, updateF_ne _ _ _ _ (fun hh => hx hh.symm)]

theorem registerNode_snd (node : WorkflowNode)
    (m : (String → Int) × (String → List String)) (x : String) :
    (registerNode m node).2 x =
      m.2 x ++ List.replicate (node.dependsOn.count x) node.id := by
  unfold registerNode
  induction node.dependsOn generalizing m with
  | nil => simp
  | cons d rest ih =>
    rw [List.foldl_cons, ih]
    by_cases hd : d = x
    · subst hd
      simp [registerDep, updateF_self, List.count_cons, List.replicate_succ]
    · have : (d == x) = false := by simpa using hd
      simp [registerDep, List.count_cons, this, updateF_ne _ _ _ _ (fun hh => hd hh.symm)]

theorem buildMaps_fst (nodes : List WorkflowNode) (x : String) :
    (buildMaps nodes).1 x =
      (nodes.map (fun n => if n.id = x then (n.dependsOn.length : Int) else 0)).sum := by
  unfold buildMaps
  have main : ∀ (l : List WorkflowNode) (m : (String → Int) × (String → List String)),
      (l.foldl registerNode m).1 x =
        m.1 x + (l.map (fun n => if n.id = x then (n.dependsOn.length : Int) else 0)).sum := by
    intro l
    induction l with
    | nil => intro m; simp
    | cons n rest ih =>
      intro m
      rw [List.foldl_cons, ih, registerNode_fst]
      simp
      omega
  rw [main]
  simp

theorem buildMaps_snd (nodes : List WorkflowNode) (x : String) :
    (buildMaps nodes).2 x =
      (nodes.map (fun n => List.replicate (n.dependsOn.count x) n.id)).flatten := by
  unfold buildMaps
  have main : ∀ (l : List WorkflowNode) (m : (String → Int) × (String → List String)),
      (l.foldl registerNode m).2 x =
        m.2 x ++ (l.map (fun n => List.replicate (n.dependsOn.count x) n.id)).flatten := by
    intro l
    induction l with
    | nil => intro m; simp
    | cons n rest ih =>
      intro m
      rw [List.foldl_cons, ih, registerNode_snd]
      simp
  rw [main]
  simp

theorem sum_zero_of_not_mem (nodes : List WorkflowNode) (x : String)
    (h : x ∉ nodes.map (fun n => n.id)) :
    (nodes.map (fun n => if n.id = x then (n.dependsOn.length : Int) else 0)).sum = 0 := by
  induction nodes with
  | nil => simp
  | cons n rest ih =>
    simp only [List.map_cons, List.mem_cons, not_or] at h ⊢
    rw [List.sum_cons, if_neg (fun hh => h.1 hh.symm), ih h.2]
    simp

theorem buildMaps_fst_depsLen (nodes : List WorkflowNode)
    (hN : (nodes.map (fun n => n.id)).Nodup) (x : String) :
    (buildMaps nodes).1 x = ((depsOfNodes nodes x).length : Int) := by
  rw [buildMaps_fst]
  induction nodes with
  | nil => simp [depsOfNodes]
  | cons n rest ih =>
    simp only [List.map_cons, List.nodup_cons] at hN
    by_cases hx : n.id = x
    · subst hx
      rw [List.map_cons, List.sum_cons, if_pos rfl,
          sum_zero_of_not_mem rest n.id hN.1]
      simp [depsOfNodes, List.find?_cons_of_pos]
    · rw [List.map_cons, List.sum_cons, if_neg hx, ih hN.2]
      have hs : depsOfNodes (n :: rest) x = depsOfNodes rest x := by
        unfold depsOfNodes
        rw [List.find?_cons_of_neg _ (by simpa using hx)]
      rw [hs]
      simp

theorem count_flatten_blocks (nodes : List WorkflowNode) (x i : String) :
    ((nodes.map (fun n => List.replicate (n.dependsOn.count x) n.id)).flatten).count i =
      (nodes.map (fun n => if n.id = i then n.dependsOn.count x else 0)).sum := by
  induction nodes with
  | nil => simp
  | cons n rest ih =>
    simp only [List.map_cons, List.flatten_cons, List.count_append, ih, List.sum_cons]
    by_cases h : n.id = i
    · subst h
      simp [List.count_replicate]
    · rw [if_neg h, List.count_replicate, if_neg (by simpa using h)]

theorem sum_nat_zero_of_not_mem (nodes : List WorkflowNode) (i : String)
    (f : WorkflowNode → Nat) (h : i ∉ nodes.map (fun n => n.id)) :
    (nodes.map (fun n => if n.id = i then f n else 0)).sum = 0 := by
  induction nodes with
  | nil => simp
  | cons n rest ih =>
    simp only [List.map_cons, List.mem_cons, not_or] at h ⊢
    rw [List.sum_cons, if_neg (fun hh => h.1 hh.symm), ih h.2]

theorem buildMaps_snd_count (nodes : List WorkflowNode)
    (hN : (nodes.map (fun n => n.id)).Nodup) (x i : String) :
    ((buildMaps nodes).2 x).count i = (depsOfNodes nodes i).count x := by
  rw [buildMaps_snd, count_flatten_blocks]
  induction nodes with
  | nil => simp [depsOfNodes]
  | cons n rest ih =>
    simp only [List.map_cons, List.nodup_cons] at hN
    by_cases h : n.id = i
    · subst h
      rw [List.map_cons, List.sum_cons, if_pos rfl,
          sum_nat_zero_of_not_mem rest n.id _ hN.1]
      simp [depsOfNodes, List.find?_cons_of_pos]
    · rw [List.map_cons, List.sum_cons, if_neg h, ih hN.2]
      have hs : depsOfNodes (n :: rest) i = depsOfNodes rest i := by
        unfold depsOfNodes
        rw [List.find?_cons_of_neg _ (by simpa using h)]
      rw [hs]
      omega

theorem mem_dependents_iff (nodes : List WorkflowNode)
    (hN : (nodes.map (fun n => n.id)).Nodup) (x i : String) :
    i ∈ (buildMaps nodes).2 x ↔ x ∈ depsOfNodes nodes i := by
  rw [← List.count_pos_iff, buildMaps_snd_count nodes hN x i, List.count_pos_iff]

theorem mem_dependents_mem_ids (nodes : List WorkflowNode) (x i : String)
    (h : i ∈ (buildMaps nodes).2 x) : i ∈ nodes.map (fun n => n.id) := by
  rw [buildMaps_snd] at h
  simp only [List.mem_flatten, List.mem_map] at h
  obtain ⟨l, ⟨n, hn, hl⟩, hi⟩ := h
  subst hl
  rw [List.eq_of_mem_replicate hi]
  exact List.mem_map.mpr ⟨n, hn, rfl⟩

theorem find?_eq_of_nodup (nodes : List WorkflowNode)
    (hN : (nodes.map (fun n => n.id)).Nodup) (n : WorkflowNode)
    (hn : n ∈ nodes) : nodes.find? (fun m => m.id = n.id) = some n := by
  induction nodes with
  | nil => cases hn
  | cons a rest ih =>
    simp only [List.map_cons, List.nodup_cons] at hN
    rcases List.mem_cons.mp hn with h | h
    · subst h
      exact List.find?_cons_of_pos _ (by simp)
    · have hne : a.id ≠ n.id := by
        intro he
        exact hN.1 (he ▸ List.mem_map.mpr ⟨n, h, rfl⟩)
      rw [List.find?_cons_of_neg _ (by simpa using hne)]
      exact ih hN.2 h

theorem depsOf_eq_of_mem (wf : Workflow) (hN : (allIds wf).Nodup)
    (n : WorkflowNode) (hn : n ∈ wf.nodes) : depsOf wf n.id = n.dependsOn := by
  unfold depsOf depsOfNodes
  rw [find?_eq_of_nodup wf.nodes hN n hn]

theorem depEdge_iff (wf : Workflow) (hN : (allIds wf).Nodup) (d b : String) :
    depEdge wf d b ↔ (b ∈ allIds wf ∧ d ∈ depsOf wf b) := by
  constructor
  · rintro ⟨n, hn, hid, hd⟩
    subst hid
    exact ⟨List.mem_map.mpr ⟨n, hn, rfl⟩, (depsOf_eq_of_mem wf hN n hn) ▸ hd⟩
  · rintro ⟨hb, hd⟩
    obtain ⟨n, hn, hid⟩ := List.mem_map.mp hb
    subst hid
    exact ⟨n, hn, rfl, (depsOf_eq_of_mem wf hN n hn) ▸ hd⟩



theorem decFold_fst (lst : List String) (ind : String → Int) (q : List String)
    (x : String) :
    (decFold lst (ind, q)).1 x = ind x - (lst.count x : Int) := by
  induction lst generalizing ind q with
  | nil => simp [decFold]
  | cons d rest ih =>
    unfold decFold at ih ⊢
    rw [List.foldl_cons]
    by_cases hq : updateF ind d (ind d - 1) d = 0
    · simp only [if_pos hq]
      rw [ih]
      by_cases hx : x = d
      · subst hx
        rw [updateF_self, List.count_cons_self]
        push_cast
        omega
      · rw [updateF_ne _ _ _ _ hx, List.count_cons_of_ne hx]
    · simp only [if_neg hq]
      rw [ih]
      by_cases hx : x = d
      · subst hx
        rw [updateF_self, List.count_cons_self]
        omega
      · rw [updateF_ne _ _ _ _ hx, List.count_cons_of_ne hx]

theorem decFold_snd (lst : List String) (ind : String → Int) (q : List String) :
    ∃ newq, (decFold lst (ind, q)).2 = q ++ newq ∧ newq.Nodup ∧
      (∀ x, x ∈ newq ↔ (1 ≤ ind x ∧ ind x ≤ (lst.count x : Int))) := by
  induction lst generalizing ind q with
  | nil =>
    refine ⟨[], by simp [decFold], List.nodup_nil, ?_⟩
    intro x
    simp only [List.not_mem_nil, false_iff, not_and, not_le]
    intro h1
    simp only [List.count_nil, Nat.cast_zero]
    omega
  | cons d rest ih =>
    unfold decFold at ih ⊢
    rw [List.foldl_cons]
    by_cases hq : updateF ind d (ind d - 1) d = 0
    · have hq' : ind d - 1 = 0 := by rwa [updateF_self] at hq
      rw [if_pos hq]
      obtain ⟨nq, heq, hnd, hiff⟩ := ih (updateF ind d (ind d - 1)) (q ++ [d])
      refine ⟨d :: nq, by rw [heq]; simp, ?_, ?_⟩
      · refine List.nodup_cons.mpr ⟨?_, hnd⟩
        intro hd
        have := (hiff d).mp hd
        rw [updateF_self] at this
        omega
      · intro x
        by_cases hx : x = d
        · subst hx
          simp only [List.mem_cons, true_or, true_iff, List.count_cons_self]
          push_cast
          omega
        · simp only [List.mem_cons, hx, false_or]
          rw [hiff x, updateF_ne _ _ _ _ hx, List.count_cons_of_ne hx]
    · have hq' : ¬ ind d - 1 = 0 := by rwa [updateF_self] at hq
      rw [if_neg hq]
      obtain ⟨nq, heq, hnd, hiff⟩ := ih (updateF ind d (ind d - 1)) q
      refine ⟨nq, heq, hnd, ?_⟩
      intro x
      by_cases hx : x = d
      · subst hx
        rw [hiff x, updateF_self, List.count_cons_self]
        push_cast
        constructor
        · intro h
          omega
        · intro h
          omega
      · rw [hiff x, updateF_ne _ _ _ _ hx, List.count_cons_of_ne hx]



theorem filter_notmem_snoc (l order : List String) (b : String) (hb : b ∉ order) :
    ((l.filter (fun d => decide (d ∉ order ++ [b]))).length : Int) =
      ((l.filter (fun d => decide (d ∉ order))).length : Int) - (l.count b : Int) := by
  induction l with
  | nil => simp
  | cons d rest ih =>
    by_cases hd : d = b
    · subst hd
      have h1 : (decide (d ∉ order ++ [d])) = false := by simp
      have h2 : (decide (d ∉ order)) = true := by simpa using hb
      rw [List.filter_cons, List.filter_cons, h1, h2, List.count_cons_self]
      simp only [Bool.false_eq_true, if_false, if_true, List.length_cons]
      push_cast
      omega
    · have heq : (decide (d ∉ order ++ [b])) = (decide (d ∉ order)) := by
        simp [List.mem_append, hd]
      rw [List.filter_cons, List.filter_cons, heq,
          List.count_cons_of_ne (fun he => hd he.symm)]
      by_cases hmem : (decide (d ∉ order)) = true
      · rw [hmem]
        simp only [if_true, List.length_cons]
        push_cast
        push_cast at ih
        omega
      · rw [Bool.not_eq_true] at hmem
        rw [hmem]
        simp only [Bool.false_eq_true, if_false]
        exact ih

theorem filter_notmem_eq_count (l order : List String) (b : String)
    (hb : b ∉ order) (hsub : ∀ d ∈ l, d ∈ order ++ [b]) :
    (l.filter (fun d => decide (d ∉ order))).length = l.count b := by
  induction l with
  | nil => simp
  | cons d rest ih =>
    have hd := hsub d (List.mem_cons_self d rest)
    rw [List.filter_cons]
    rcases List.mem_append.mp hd with hdo | hdb
    · have h2 : (decide (d ∉ order)) = false := by simpa using hdo
      have hdb : d ≠ b := fun he => hb (he ▸ hdo)
      rw [h2, List.count_cons_of_ne (fun he => hdb he.symm)]
      simp only [Bool.false_eq_true, if_false]
      exact ih (fun x hx => hsub x (List.mem_cons_of_mem d hx))
    · have hdb : d = b := by simpa using hdb
      subst hdb
      have h2 : (decide (d ∉ order)) = true := by simpa using hb
      rw [h2, List.count_cons_self]
      simp only [if_true, List.length_cons]
      rw [ih (fun x hx => hsub x (List.mem_cons_of_mem d hx))]

theorem kinv_step (wf : Workflow) (hN : (allIds wf).Nodup)
    (ind : String → Int) (nid : String) (qrest order : List String)
    (inv : KInv wf ind (nid :: qrest) order) :
    KInv wf (decFold ((buildMaps wf.nodes).2 nid) (ind, qrest)).1
      (decFold ((buildMaps wf.nodes).2 nid) (ind, qrest)).2
      (order ++ [nid]) := by
  obtain ⟨newq, hq2, hnqnd, hnqiff⟩ :=
    decFold_snd ((buildMaps wf.nodes).2 nid) ind qrest
  have hfst := decFold_fst ((buildMaps wf.nodes).2 nid) ind qrest
  have hnid_mem : nid ∈ allIds wf := inv.mem_ids nid (by simp)
  have hnodup := inv.nodup
  have hdisj : order.Disjoint (nid :: qrest) := (List.nodup_append.mp hnodup).2.2
  have hnid_not_order : nid ∉ order := fun h => hdisj h (List.mem_cons_self _ _)
  have hdeps_sub : ∀ d ∈ depsOf wf nid, d ∈ order :=
    (inv.enq_iff nid hnid_mem).mp (Or.inr (List.mem_cons_self _ _))
  have hcount : ∀ x, ((buildMaps wf.nodes).2 nid).count x = (depsOf wf x).count nid :=
    fun x => buildMaps_snd_count wf.nodes hN nid x
  have hnewq_dep : ∀ x ∈ newq, nid ∈ depsOf wf x := by
    intro x hx
    have h1 := (hnqiff x).mp hx
    have hcnt : 0 < ((buildMaps wf.nodes).2 nid).count x := by
      rcases Nat.eq_zero_or_pos (((buildMaps wf.nodes).2 nid).count x) with h | h
      · rw [h] at h1
        push_cast at h1
        omega
      · exact h
    exact (mem_dependents_iff wf.nodes hN nid x).mp (List.count_pos_iff.mp hcnt)
  have hnewq_ids : ∀ x ∈ newq, x ∈ allIds wf := by
    intro x hx
    have h1 := (hnqiff x).mp hx
    have hcnt : 0 < ((buildMaps wf.nodes).2 nid).count x := by
      rcases Nat.eq_zero_or_pos (((buildMaps wf.nodes).2 nid).count x) with h | h
      · rw [h] at h1
        push_cast at h1
        omega
      · exact h
    exact mem_dependents_mem_ids wf.nodes nid x (List.count_pos_iff.mp hcnt)
  have hnewq_fresh : ∀ x ∈ newq, x ∉ order ∧ x ∉ nid :: qrest := by
    intro x hx
    have hxid := hnewq_ids x hx
    constructor
    · intro hmem
      exact hnid_not_order
        (((inv.enq_iff x hxid).mp (Or.inl hmem)) nid (hnewq_dep x hx))
    · intro hmem
      exact hnid_not_order
        (((inv.enq_iff x hxid).mp (Or.inr hmem)) nid (hnewq_dep x hx))
  have hcounters : ∀ id ∈ allIds wf,
      (decFold ((buildMaps wf.nodes).2 nid) (ind, qrest)).1 id =
        (((depsOf wf id).filter (fun d => decide (d ∉ order ++ [nid]))).length : Int) := by
    intro id hid
    rw [hfst id, inv.counters id hid, hcount id,
        filter_notmem_snoc (depsOf wf id) order nid hnid_not_order]
  refine ⟨?_, ?_, hcounters, ?_, ?_⟩
  · -- nodup
    rw [hq2, ← List.append_assoc]
    apply List.Nodup.append
    · have hre : (order ++ [nid]) ++ qrest = order ++ nid :: qrest := by simp
      rw [hre]
      exact hnodup
    · exact hnqnd
    · intro a ha hanew
      obtain ⟨hno, hnq⟩ := hnewq_fresh a hanew
      rcases List.mem_append.mp ha with h | h
      · rcases List.mem_append.mp h with h2 | h2
        · exact hno h2
        · exact hnq (by simpa using Or.inl (by simpa using h2))
      · exact hnq (List.mem_cons_of_mem _ h)
  · -- mem_ids
    intro x hx
    rw [hq2] at hx
    rcases List.mem_append.mp hx with h | h
    · rcases List.mem_append.mp h with h2 | h2
      · exact inv.mem_ids x (List.mem_append.mpr (Or.inl h2))
      · have : x = nid := by simpa using h2
        exact this ▸ hnid_mem
    · rcases List.mem_append.mp h with h2 | h2
      · exact inv.mem_ids x (List.mem_append.mpr (Or.inr (List.mem_cons_of_mem _ h2)))
      · exact hnewq_ids x h2
  · -- enq_iff
    intro id hid
    rw [hq2]
    constructor
    · intro hcase
      rcases hcase with h | h
      · rcases List.mem_append.mp h with h2 | h2
        · exact fun d hd => List.mem_append.mpr
            (Or.inl (((inv.enq_iff id hid).mp (Or.inl h2)) d hd))
        · have : id = nid := by simpa using h2
          subst this
          exact fun d hd => List.mem_append.mpr (Or.inl (hdeps_sub d hd))
      · rcases List.mem_append.mp h with h2 | h2
        · exact fun d hd => List.mem_append.mpr
            (Or.inl (((inv.enq_iff id hid).mp
              (Or.inr (List.mem_cons_of_mem _ h2))) d hd))
        · -- id ∈ newq: its new counter is zero
          have hc' := hcounters id hid
          have h1 := (hnqiff id).mp h2
          rw [hfst id] at hc'
          have hlen : (((depsOf wf id).filter
              (fun d => decide (d ∉ order ++ [nid]))).length : Int) ≤ 0 := by
            omega
          have hlen0 : ((depsOf wf id).filter
              (fun d => decide (d ∉ order ++ [nid]))).length = 0 := by
            omega
          intro d hd
          by_contra hdc
          have : d ∈ (depsOf wf id).filter (fun d => decide (d ∉ order ++ [nid])) :=
            List.mem_filter.mpr ⟨hd, by simpa using hdc⟩
          rw [List.length_eq_zero.mp hlen0] at this
          cases this
    · intro hsub
      by_cases hnd : nid ∈ depsOf wf id
      · -- the counter equals the multiplicity of nid; id is newly enqueued
        right
        refine List.mem_append.mpr (Or.inr ((hnqiff id).mpr ⟨?_, ?_⟩))
        · rw [inv.counters id hid,
              filter_notmem_eq_count (depsOf wf id) order nid hnid_not_order hsub]
          have : 0 < (depsOf wf id).count nid := List.count_pos_iff.mpr hnd
          omega
        · rw [inv.counters id hid,
              filter_notmem_eq_count (depsOf wf id) order nid hnid_not_order hsub,
              hcount id]
      · have hsub2 : ∀ d ∈ depsOf wf id, d ∈ order := by
          intro d hd
          rcases List.mem_append.mp (hsub d hd) with h | h
          · exact h
          · exact absurd (by simpa using h : d = nid) (fun he => hnd (he ▸ hd))
        rcases (inv.enq_iff id hid).mpr hsub2 with h | h
        · exact Or.inl (List.mem_append.mpr (Or.inl h))
        · rcases List.mem_cons.mp h with h2 | h2
          · exact Or.inl (List.mem_append.mpr (Or.inr (by simpa using h2)))
          · exact Or.inr (List.mem_append.mpr (Or.inl h2))
  · -- topo
    intro b pre post heq d hd
    rcases List.eq_nil_or_concat' post with hpost | ⟨post2, z, hpost⟩
    · subst hpost
      obtain ⟨h1, h2⟩ := List.append_inj' heq.symm rfl
      have hb : b = nid := by simpa using h2
      subst hb
      rw [← h1] at hdeps_sub
      exact hdeps_sub d hd
    · subst hpost
      have heq2 : (pre ++ b :: post2) ++ [z] = order ++ [nid] := by
        simpa using heq.symm
      obtain ⟨h1, h2⟩ := List.append_inj' heq2 rfl
      exact inv.topo b pre post2 h1.symm d hd

theorem kinv_init (wf : Workflow) (hN : (allIds wf).Nodup) :
    KInv wf (buildMaps wf.nodes).1
      ((allIds wf).filter (fun nid => decide ((buildMaps wf.nodes).1 nid = 0))) [] := by
  refine ⟨?_, ?_, ?_, ?_, ?_⟩
  · simpa using hN.filter _
  · intro x hx
    simp only [List.nil_append] at hx
    exact List.mem_of_mem_filter hx
  · intro id hid
    rw [buildMaps_fst_depsLen wf.nodes hN id]
    simp [depsOf]
  · intro id hid
    simp only [List.not_mem_nil, false_or]
    rw [List.mem_filter]
    constructor
    · rintro ⟨-, hz⟩
      rw [buildMaps_fst_depsLen wf.nodes hN id] at hz
      have hlen : (depsOfNodes wf.nodes id).length = 0 := by
        have := of_decide_eq_true hz
        omega
      intro d hd
      rw [show depsOf wf id = depsOfNodes wf.nodes id from rfl,
          List.length_eq_zero.mp hlen] at hd
      cases hd
    · intro hall
      refine ⟨hid, ?_⟩
      rw [buildMaps_fst_depsLen wf.nodes hN id]
      have hnil : depsOf wf id = [] := by
        cases hdep : depsOf wf id with
        | nil => rfl
        | cons a rest =>
          have hmem := hall a (by rw [hdep]; exact List.mem_cons_self a rest)
          simp at hmem
      rw [show depsOfNodes wf.nodes id = depsOf wf id from rfl, hnil]
      simp
  · intro b pre post heq
    exact absurd heq.symm (by simp)

theorem kahnLoop_post (wf : Workflow) (hN : (allIds wf).Nodup) :
    ∀ (fuel : Nat) (ind : String → Int) (queue order : List String),
      KInv wf ind queue order →
      (allIds wf).length < order.length + fuel →
      ∃ ind2, KInv wf ind2 []
        (kahnLoop (buildMaps wf.nodes).2 fuel ind queue order) := by
  intro fuel
  induction fuel with
  | zero =>
    intro ind queue order inv hlen
    cases queue with
    | nil => exact ⟨ind, by simpa [kahnLoop] using inv⟩
    | cons a q =>
      exfalso
      have hnd : order.Nodup := (List.nodup_append.mp inv.nodup).1
      have hsub : order ⊆ allIds wf :=
        fun x hx => inv.mem_ids x (List.mem_append.mpr (Or.inl hx))
      have hle : order.length ≤ (allIds wf).length := by
        calc order.length = order.toFinset.card :=
              (List.toFinset_card_of_nodup hnd).symm
          _ ≤ (allIds wf).toFinset.card := by
              apply Finset.card_le_card
              intro x hx
              rw [List.mem_toFinset] at hx ⊢
              exact hsub hx
          _ ≤ (allIds wf).length := List.toFinset_card_le _
      omega
  | succ fuel ih =>
    intro ind queue order inv hlen
    cases queue with
    | nil => exact ⟨ind, by simpa [kahnLoop] using inv⟩
    | cons nid q =>
      have hstep := kinv_step wf hN ind nid q order inv
      simp only [kahnLoop]
      exact ih _ _ _ hstep (by simp only [List.length_append, List.length_cons]; omega)

theorem depsOf_subset_ids (wf : Workflow) (hV : validDeps wf) (id d : String)
    (hd : d ∈ depsOf wf id) : d ∈ allIds wf := by
  unfold depsOf depsOfNodes at hd
  cases hfind : wf.nodes.find? (fun n => n.id = id) with
  | none => rw [hfind] at hd; cases hd
  | some n =>
    rw [hfind] at hd
    exact hV n (List.mem_of_find?_eq_some hfind) d hd

theorem mem_iff_of_nodup_subset_length (l L : List String) (hl : l.Nodup)
    (hL : L.Nodup) (hsub : l ⊆ L) (hlen : L.length ≤ l.length) :
    ∀ x, x ∈ l ↔ x ∈ L := by
  have hF : l.toFinset = L.toFinset := by
    apply Finset.eq_of_subset_of_card_le
    · intro x hx
      rw [List.mem_toFinset] at hx ⊢
      exact hsub hx
    · rw [List.toFinset_card_of_nodup hl, List.toFinset_card_of_nodup hL]
      exact hlen
  intro x
  rw [← List.mem_toFinset, hF, List.mem_toFinset]

theorem edge_indexOf_lt (wf : Workflow) (hN : (allIds wf).Nodup)
    (order : List String) (hnd : order.Nodup)
    (hcov : ∀ id, id ∈ order ↔ id ∈ allIds wf)
    (htopo : ∀ b pre post, order = pre ++ b :: post → ∀ d ∈ depsOf wf b, d ∈ pre)
    (d b : String) (e : depEdge wf d b) :
    d ∈ order ∧ b ∈ order ∧ List.indexOf d order < List.indexOf b order := by
  obtain ⟨hbid, hdep⟩ := (depEdge_iff wf hN d b).mp e
  have hb : b ∈ order := (hcov b).mpr hbid
  obtain ⟨pre, post, horder⟩ := List.append_of_mem hb
  have hbpre : b ∉ pre := by
    have := horder ▸ hnd
    intro hmem
    exact (List.disjoint_of_nodup_append this) hmem (List.mem_cons_self _ _)
  have hd : d ∈ pre := htopo b pre post horder d hdep
  have hidxb : List.indexOf b order = pre.length := by
    rw [horder, List.indexOf_append_of_not_mem hbpre, List.indexOf_cons_self]
    omega
  have hidxd : List.indexOf d order < pre.length := by
    rw [horder, List.indexOf_append_of_mem hd]
    exact List.indexOf_lt_length.mpr hd
  exact ⟨horder ▸ List.mem_append.mpr (Or.inl hd), hb, by omega⟩

theorem transGen_indexOf_lt (wf : Workflow) (hN : (allIds wf).Nodup)
    (order : List String) (hnd : order.Nodup)
    (hcov : ∀ id, id ∈ order ↔ id ∈ allIds wf)
    (htopo : ∀ b pre post, order = pre ++ b :: post → ∀ d ∈ depsOf wf b, d ∈ pre) :
    ∀ a b, Relation.TransGen (depEdge wf) a b →
      a ∈ order ∧ b ∈ order ∧ List.indexOf a order < List.indexOf b order := by
  intro a b h
  induction h with
  | single e => exact edge_indexOf_lt wf hN order hnd hcov htopo _ _ e
  | tail p e ih =>
    obtain ⟨h1, h2, h3⟩ := ih
    obtain ⟨h4, h5, h6⟩ := edge_indexOf_lt wf hN order hnd hcov htopo _ _ e
    exact ⟨h1, h5, by omega⟩

theorem topologicalSort_kinv (wf : Workflow) (hN : (allIds wf).Nodup) :
    ∃ ind2, KInv wf ind2 []
      (kahnLoop (buildMaps wf.nodes).2 (2 * (allIds wf).length + 1)
        (buildMaps wf.nodes).1
        ((allIds wf).filter (fun nid => decide ((buildMaps wf.nodes).1 nid = 0))) []) :=
  kahnLoop_post wf hN _ _ _ _ (kinv_init wf hN)
    (by simp only [List.length_nil]; omega)

theorem topologicalSort_ok_props (wf : Workflow) (hN : (allIds wf).Nodup)
    (order : List String) (h : topologicalSort wf = Except.ok order) :
    order.Nodup ∧ (∀ id, id ∈ order ↔ id ∈ allIds wf) ∧
    (∀ b pre post, order = pre ++ b :: post → ∀ d ∈ depsOf wf b, d ∈ pre) := by
  obtain ⟨ind2, inv⟩ := topologicalSort_kinv wf hN
  simp only [topologicalSort] at h
  split at h
  · rename_i hlen
    have horder : order =
        kahnLoop (buildMaps wf.nodes).2 (2 * (allIds wf).length + 1)
          (buildMaps wf.nodes).1
          ((allIds wf).filter (fun nid => decide ((buildMaps wf.nodes).1 nid = 0))) [] := by
      simpa using h.symm
    rw [← horder] at inv
    have hnd : order.Nodup := by simpa using inv.nodup
    have hsub : order ⊆ allIds wf := by
      intro x hx
      exact inv.mem_ids x (by simpa using hx)
    have hcov := mem_iff_of_nodup_subset_length order (allIds wf) hnd hN hsub
      (le_of_eq (horder ▸ hlen.symm))
    exact ⟨hnd, hcov, inv.topo⟩
  · cases h

theorem topologicalSort_ok_acyclic (wf : Workflow) (hN : (allIds wf).Nodup)
    (order : List String) (h : topologicalSort wf = Except.ok order) :
    ¬ hasCycle wf := by
  obtain ⟨hnd, hcov, htopo⟩ := topologicalSort_ok_props wf hN order h
  rintro ⟨n, hn⟩
  obtain ⟨-, -, hlt⟩ := transGen_indexOf_lt wf hN order hnd hcov htopo n n hn
  omega

theorem topologicalSort_error_cycle (wf : Workflow) (hN : (allIds wf).Nodup)
    (hV : validDeps wf) (e : PyErr) (h : topologicalSort wf = Except.error e) :
    hasCycle wf := by
  by_contra hcyc
  obtain ⟨ind2, inv⟩ := topologicalSort_kinv wf hN
  simp only [topologicalSort] at h
  split at h
  · cases h
  · rename_i hlen
    set order := kahnLoop (buildMaps wf.nodes).2 (2 * (allIds wf).length + 1)
      (buildMaps wf.nodes).1
      ((allIds wf).filter (fun nid => decide ((buildMaps wf.nodes).1 nid = 0))) []
      with horder
    have hnd : order.Nodup := by simpa using inv.nodup
    have hsub : order ⊆ allIds wf := by
      intro x hx
      exact inv.mem_ids x (by simpa using hx)
    -- some node is missing from the order
    have hmissing : ∃ m ∈ allIds wf, m ∉ order := by
      by_contra hall
      push_neg at hall
      have : ∀ x, x ∈ order ↔ x ∈ allIds wf :=
        fun x => ⟨fun hx => hsub hx, fun hx => hall x hx⟩
      have : order.length = (allIds wf).length := by
        rw [← List.toFinset_card_of_nodup hnd, ← List.toFinset_card_of_nodup hN]
        congr 1
        ext x
        rw [List.mem_toFinset, List.mem_toFinset]
        exact this x
      exact hlen this
    obtain ⟨m, hmid, hmord⟩ := hmissing
    -- the missing set is closed under taking a missing dependency
    have hstep : ∀ x, x ∈ allIds wf → x ∉ order →
        ∃ d, d ∈ allIds wf ∧ d ∉ order ∧ depEdge wf d x := by
      intro x hxid hxord
      have := (inv.enq_iff x hxid)
      simp only [List.not_mem_nil, or_false] at this
      have hnsub : ¬ (∀ d ∈ depsOf wf x, d ∈ order) := fun hs => hxord (this.mpr hs)
      push_neg at hnsub
      obtain ⟨d, hd, hdord⟩ := hnsub
      exact ⟨d, depsOf_subset_ids wf hV x d hd, hdord,
        (depEdge_iff wf hN d x).mpr ⟨hxid, hd⟩⟩
    -- a minimal missing node in the transitive dependency order
    let α := {x // x ∈ (allIds wf).toFinset}
    let r : α → α → Prop := fun a b => Relation.TransGen (depEdge wf) a.1 b.1
    haveI : IsTrans α r := ⟨fun _ _ _ hab hbc => Relation.TransGen.trans hab hbc⟩
    haveI : IsIrrefl α r := ⟨fun a ha => hcyc ⟨a.1, ha⟩⟩
    have hwf : WellFounded r := Finite.wellFounded_of_trans_of_irrefl r
    have hSne : Set.Nonempty {x : α | x.1 ∉ order} :=
      ⟨⟨m, List.mem_toFinset.mpr hmid⟩, hmord⟩
    obtain ⟨m0, hm0S, hm0min⟩ := hwf.has_min {x : α | x.1 ∉ order} hSne
    obtain ⟨d, hdid, hdord, hedge⟩ :=
      hstep m0.1 (List.mem_toFinset.mp m0.2) hm0S
    exact hm0min ⟨d, List.mem_toFinset.mpr hdid⟩ hdord
      (Relation.TransGen.single hedge)

/-- C6 amended: for workflows satisfying the data-model invariants
(unique node ids, every dependency naming an existing node), the sort
raises the cycle-detected error exactly when the `depends_on` graph has a
cycle; the raise propagates out of `execute` with the shared trace
unchanged; and on the acyclic side the computed order lists every node
exactly once in topological order.  Without the validity hypotheses a
dangling dependency also raises (see the counterexample). -/
theorem cycle_detection_characterized (wf : Workflow) (hN : (allIds wf).Nodup)
    (hV : validDeps wf) :
    ((∃ e, topologicalSort wf = Except.error e) ↔ hasCycle wf) ∧
    (∀ (e : PyErr) (services : String → Option Service)
        (fc : Option FailureConfig) (trigger : String → Bool)
        (sim0 : SimState) (trace0 : List TraceStep),
      topologicalSort wf = Except.error e →
      execute wf services fc trigger sim0 trace0 = Except.error (e, trace0)) ∧
    (∀ order, topologicalSort wf = Except.ok order →
      order.Nodup ∧ (∀ id, id ∈ order ↔ id ∈ allIds wf) ∧ topoSorted wf order) := by
  refine ⟨⟨?_, ?_⟩, ?_, ?_⟩
  · rintro ⟨e, he⟩
    exact topologicalSort_error_cycle wf hN hV e he
  · intro hcyc
    cases h : topologicalSort wf with
    | ok order => exact absurd hcyc (topologicalSort_ok_acyclic wf hN order h)
    | error e => exact ⟨e, rfl⟩
  · intro e services fc trigger sim0 trace0 he
    unfold execute
    rw [he]
  · intro order h
    obtain ⟨hnd, hcov, htopo⟩ := topologicalSort_ok_props wf hN order h
    refine ⟨hnd, hcov, ?_⟩
    intro b pre post heq d hd
    exact htopo b pre post heq d ((depEdge_iff wf hN d b).mp hd).2

/-- Witness for `cycle_detection_characterized` at a concrete valid
two-node chain workflow. -/
theorem cycle_detection_characterized_witness :
    ((allIds wfChain).Nodup ∧ validDeps wfChain) ∧
    (((∃ e, topologicalSort wfChain = Except.error e) ↔ hasCycle wfChain) ∧
     (∀ (e : PyErr) (services : String → Option Service)
         (fc : Option FailureConfig) (trigger : String → Bool)
         (sim0 : SimState) (trace0 : List TraceStep),
       topologicalSort wfChain = Except.error e →
       execute wfChain services fc trigger sim0 trace0 = Except.error (e, trace0)) ∧
     (∀ order, topologicalSort wfChain = Except.ok order →
       order.Nodup ∧ (∀ id, id ∈ order ↔ id ∈ allIds wfChain) ∧
       topoSorted wfChain order)) :=
  ⟨⟨by decide, by unfold validDeps; decide⟩,
   cycle_detection_characterized wfChain (by decide) (by unfold validDeps; decide)⟩

/-- C6 counterexample: a workflow whose single node depends on a
non-existent node makes `execute` raise the cycle-detected error although
its `depends_on` graph is acyclic (no trace step is appended either way). -/
theorem dangling_dep_raises_without_cycle :
    execute wfDangling (fun _ => none) none (fun _ => false) emptySim [] =
      Except.error (PyErr.cycleDetected ["a"], []) ∧
    ¬ hasCycle wfDangling := by
  refine ⟨rfl, ?_⟩
  rintro ⟨n, hn⟩
  have hedge : ∀ x y, depEdge wfDangling x y → x = "ghost" ∧ y = "a" := by
    rintro x y ⟨node, hnode, hid, hdep⟩
    have hnode2 : node = ⟨"a", "hr", "create_employee", [], ["ghost"]⟩ := by
      simpa [wfDangling] using hnode
    subst hnode2
    simp at hid hdep
    exact ⟨hdep, hid.symm⟩
  have hstart : ∀ x y, Relation.TransGen (depEdge wfDangling) x y → x = "ghost" := by
    intro x y h
    induction h with
    | single e => exact (hedge _ _ e).1
    | tail p e ih => exact ih
  have hend : ∀ x y, Relation.TransGen (depEdge wfDangling) x y → y = "a" := by
    intro x y h
    induction h with
    | single e => exact (hedge _ _ e).2
    | tail p e ih => exact (hedge _ _ e).2
  have h1 := hstart n n hn
  have h2 := hend n n hn
  rw [h1] at h2
  exact absurd h2 (by decide)



theorem recordedSuccess_append_one (steps : List TraceStep) (s : TraceStep)
    (n : String) :
    recordedSuccess (steps ++ [s]) n ↔
      (recordedSuccess steps n ∨ (s.nodeId = n ∧ s.status = StepStatus.success)) := by
  unfold recordedSuccess
  constructor
  · rintro ⟨t, ht, hid, hst⟩
    rcases List.mem_append.mp ht with h | h
    · exact Or.inl ⟨t, h, hid, hst⟩
    · have : t = s := by simpa using h
      subst this
      exact Or.inr ⟨hid, hst⟩
  · rintro (⟨t, ht, hid, hst⟩ | ⟨hid, hst⟩)
    · exact ⟨t, List.mem_append.mpr (Or.inl ht), hid, hst⟩
    · exact ⟨s, List.mem_append.mpr (Or.inr (by simp)), hid, hst⟩

theorem lookupNode_spec (wf : Workflow) (hN : (allIds wf).Nodup)
    (nid : String) (node : WorkflowNode) (h : lookupNode wf nid = some node) :
    node ∈ wf.nodes ∧ node.id = nid ∧ depsOf wf nid = node.dependsOn := by
  unfold lookupNode at h
  have hmem : node ∈ wf.nodes := List.mem_reverse.mp (List.mem_of_find?_eq_some h)
  have hid : node.id = nid := by simpa using List.find?_some h
  refine ⟨hmem, hid, ?_⟩
  rw [← hid]
  exact depsOf_eq_of_mem wf hN node hmem

theorem executeNode_sync_ok (services : String → Option Service)
    (hsync : syncServices services) (node : WorkflowNode)
    (gparams : List (String × PValue)) (outputs : List (String × CallValue))
    (simSt : SimState) (v : CallValue) (st2 : SimState) (logged : List TraceStep)
    (h : executeNode services node gparams outputs simSt = .ok (v, st2, logged)) :
    ∃ dres params, v = CallValue.dict dres ∧
      logged = [⟨node.id, node.service, node.action, params,
                 some dres, StepStatus.success, none⟩] := by
  unfold executeNode at h
  cases hs : services node.service with
  | none => rw [hs] at h; cases h
  | some svc =>
    simp only [hs] at h
    cases ha : svc.actions node.action with
    | none => rw [ha] at h; cases h
    | some c =>
      simp only [ha] at h
      obtain ⟨f, rfl⟩ := hsync node.service svc hs node.action c ha
      cases hr : resolveParameters node gparams outputs with
      | error e => simp only [hr] at h; cases h
      | ok params =>
        simp only [hr, callPy] at h
        cases hf : f node.id params simSt with
        | error e => simp only [hf, Except.map] at h; cases h
        | ok r2 =>
          simp only [hf, Except.map, Except.ok.injEq, Prod.mk.injEq] at h
          obtain ⟨h1, h2, h3⟩ := h
          exact ⟨r2.1, params, h1.symm, h3.symm⟩

theorem einv_step (wf : Workflow) (hN : (allIds wf).Nodup)
    (services : String → Option Service) (hsync : syncServices services)
    (fc : Option FailureConfig) (trigger : String → Bool)
    (st st2 : ExecSt) (nid : String) (done : List String)
    (hdeps : ∀ d ∈ depsOf wf nid, d ∈ done)
    (inv : EInv wf done st)
    (h : execStep wf services fc trigger st nid = .ok st2) :
    EInv wf (done ++ [nid]) st2 := by
  unfold execStep at h
  cases hl : lookupNode wf nid with
  | none => rw [hl] at h; cases h
  | some node =>
    obtain ⟨hnmem, hnid, hndeps⟩ := lookupNode_spec wf hN nid node hl
    simp only [hl] at h
    by_cases hup : node.dependsOn.filter
        (fun d => st.failedNodes.contains d || st.skippedNodes.contains d) ≠ []
    · rw [if_pos hup] at h
      simp only [Except.ok.injEq] at h
      subst h
      refine ⟨?_, inv.succ_deps, ?_⟩
      · intro n
        rw [recordedSuccess_append_one]
        simp only [inv.succ_iff n]
        constructor
        · rintro (hm | ⟨-, hst⟩)
          · exact hm
          · cases hst
        · exact Or.inl
      · intro x hx
        rcases List.mem_append.mp hx with hx | hx
        · rcases inv.covered x hx with hc | hc | hc
          · exact Or.inl hc
          · exact Or.inr (Or.inl hc)
          · exact Or.inr (Or.inr (List.mem_append.mpr (Or.inl hc)))
        · have hxe : x = nid := by simpa using hx
          subst hxe
          exact Or.inr (Or.inr (List.mem_append.mpr (Or.inr (by simp))))
    · push_neg at hup
      have hclear : ∀ d ∈ node.dependsOn,
          d ∉ st.failedNodes ∧ d ∉ st.skippedNodes := by
        intro d hd
        constructor
        · intro hm
          have hmem : d ∈ node.dependsOn.filter
              (fun d => st.failedNodes.contains d || st.skippedNodes.contains d) :=
            List.mem_filter.mpr ⟨hd, by simp [hm]⟩
          rw [hup] at hmem
          cases hmem
        · intro hm
          have hmem : d ∈ node.dependsOn.filter
              (fun d => st.failedNodes.contains d || st.skippedNodes.contains d) :=
            List.mem_filter.mpr ⟨hd, by simp [hm]⟩
          rw [hup] at hmem
          cases hmem
      rw [if_neg (by rw [hup]; simp)] at h
      cases hsf : shouldFail fc trigger node.service node.action with
      | some rule =>
        rw [hsf] at h
        cases hrp : resolveParameters node wf.parameters st.outputs with
        | error e => rw [hrp] at h; cases h
        | ok params =>
          rw [hrp] at h
          simp only [Except.ok.injEq] at h
          subst h
          refine ⟨?_, inv.succ_deps, ?_⟩
          · intro n
            rw [recordedSuccess_append_one]
            simp only [inv.succ_iff n]
            constructor
            · rintro (hm | ⟨-, hst⟩)
              · exact hm
              · cases hst
            · exact Or.inl
          · intro x hx
            rcases List.mem_append.mp hx with hx | hx
            · rcases inv.covered x hx with hc | hc | hc
              · exact Or.inl hc
              · exact Or.inr (Or.inl (List.mem_append.mpr (Or.inl hc)))
              · exact Or.inr (Or.inr hc)
            · have hxe : x = nid := by simpa using hx
              subst hxe
              exact Or.inr (Or.inl (List.mem_append.mpr (Or.inr (by simp))))
      | none =>
        rw [hsf] at h
        cases hex : executeNode services node wf.parameters st.outputs st.simState with
        | ok r =>
          rw [hex] at h
          simp only [Except.ok.injEq] at h
          subst h
          obtain ⟨dres, params, hv, hlog⟩ := executeNode_sync_ok services hsync node
            wf.parameters st.outputs st.simState r.1 r.2.1 r.2.2
            (by rw [hex])
          refine ⟨?_, ?_, ?_⟩
          · intro n
            rw [hlog, recordedSuccess_append_one]
            constructor
            · rintro (hm | ⟨he, -⟩)
              · simp only [List.map_append, List.map_cons, List.map_nil, List.mem_append]
                exact Or.inl ((inv.succ_iff n).mp hm)
              · have h1 : n = node.id := by simpa using he.symm
                simp only [List.map_append, List.map_cons, List.map_nil, List.mem_append]
                right
                simp [h1, hnid]
            · intro hm
              simp only [List.map_append, List.map_cons, List.map_nil,
                List.mem_append] at hm
              rcases hm with hm | hm
              · exact Or.inl ((inv.succ_iff n).mpr hm)
              · have hne : n = nid := by simpa using hm
                exact Or.inr ⟨by simp [hnid, hne], rfl⟩
          · intro n hn d hd
            simp only [List.map_append, List.map_cons, List.map_nil,
              List.mem_append] at hn ⊢
            rcases hn with hn | hn
            · exact Or.inl (inv.succ_deps n hn d hd)
            · have hne : n = nid := by simpa using hn
              subst hne
              have hd2 : d ∈ node.dependsOn := hndeps ▸ hd
              have hdone : d ∈ done := hdeps d hd
              rcases inv.covered d hdone with hc | hc | hc
              · exact Or.inl hc
              · exact absurd hc (hclear d hd2).1
              · exact absurd hc (hclear d hd2).2
          · intro x hx
            simp only [List.map_append, List.map_cons, List.map_nil, List.mem_append]
            rcases List.mem_append.mp hx with hx | hx
            · rcases inv.covered x hx with hc | hc | hc
              · exact Or.inl (Or.inl hc)
              · exact Or.inr (Or.inl hc)
              · exact Or.inr (Or.inr hc)
            · have hxe : x = nid := by simpa using hx
              subst hxe
              exact Or.inl (Or.inr (by simp))
        | error e =>
          rw [hex] at h
          cases hrp : resolveParameters node wf.parameters st.outputs with
          | error e2 => rw [hrp] at h; cases h
          | ok params =>
            rw [hrp] at h
            simp only [Except.ok.injEq] at h
            subst h
            refine ⟨?_, inv.succ_deps, ?_⟩
            · intro n
              rw [recordedSuccess_append_one]
              simp only [inv.succ_iff n]
              constructor
              · rintro (hm | ⟨-, hst⟩)
                · exact hm
                · cases hst
              · exact Or.inl
            · intro x hx
              rcases List.mem_append.mp hx with hx | hx
              · rcases inv.covered x hx with hc | hc | hc
                · exact Or.inl hc
                · exact Or.inr (Or.inl (List.mem_append.mpr (Or.inl hc)))
                · exact Or.inr (Or.inr hc)
              · have hxe : x = nid := by simpa using hx
                subst hxe
                exact Or.inr (Or.inl (List.mem_append.mpr (Or.inr (by simp))))

theorem runNodes_einv (wf : Workflow) (hN : (allIds wf).Nodup)
    (services : String → Option Service) (hsync : syncServices services)
    (fc : Option FailureConfig) (trigger : String → Bool)
    (order : List String)
    (htopo : ∀ b pre post, order = pre ++ b :: post → ∀ d ∈ depsOf wf b, d ∈ pre) :
    ∀ (rest done : List String) (st stf : ExecSt),
      order = done ++ rest → EInv wf done st →
      runNodes wf services fc trigger rest st = .ok stf →
      EInv wf order stf := by
  intro rest
  induction rest with
  | nil =>
    intro done st stf hsplit inv h
    unfold runNodes at h
    simp only [Except.ok.injEq] at h
    subst h
    rw [hsplit, List.append_nil]
    exact inv
  | cons nid rest2 ih =>
    intro done st stf hsplit inv h
    unfold runNodes at h
    cases hstep : execStep wf services fc trigger st nid with
    | error e => rw [hstep] at h; cases h
    | ok st2 =>
      rw [hstep] at h
      have hdeps : ∀ d ∈ depsOf wf nid, d ∈ done := htopo nid done rest2 hsplit
      have inv2 := einv_step wf hN services hsync fc trigger st st2 nid done
        hdeps inv hstep
      exact ih (done ++ [nid]) st2 stf (by rw [hsplit]; simp) inv2 h

/-- C3 amended: in the trace of any run of `execute` over synchronous
services (the whole simulator layer) started on a fresh trace, every node
recorded with status success has every transitive `depends_on` dependency
recorded with status success.  The restriction to synchronous actions is
forced: an async action is counted successful without any success step
(see the counterexample), so a synchronous dependent can be recorded
success while its dependency is not. -/
theorem success_implies_transitive_success (wf : Workflow)
    (services : String → Option Service) (fc : Option FailureConfig)
    (trigger : String → Bool) (sim0 : SimState) (report : ExecutionReport)
    (hN : (allIds wf).Nodup) (hsync : syncServices services)
    (hrun : execute wf services fc trigger sim0 [] = Except.ok report) :
    ∀ n m, recordedSuccess report.traceSteps n →
      Relation.TransGen (depEdge wf) m n →
      recordedSuccess report.traceSteps m := by
  unfold execute at hrun
  cases hts : topologicalSort wf with
  | error e => rw [hts] at hrun; cases hrun
  | ok order =>
    simp only [hts] at hrun
    cases hrn : runNodes wf services fc trigger order
        ⟨sim0, [], [], [], 0, 0, 0, [], []⟩ with
    | error e => simp only [hrn] at hrun; cases hrun
    | ok stf =>
      simp only [hrn] at hrun
      simp only [Except.ok.injEq] at hrun
      obtain ⟨-, -, htopo⟩ := topologicalSort_ok_props wf hN order hts
      have inv0 : EInv wf [] ⟨sim0, [], [], [], 0, 0, 0, [], []⟩ := by
        refine ⟨?_, ?_, ?_⟩
        · intro n
          simp [recordedSuccess]
        · intro n hn
          simp at hn
        · intro x hx
          cases hx
      have invf := runNodes_einv wf hN services hsync fc trigger order htopo
        order [] _ stf rfl inv0 hrn
      have hsteps : report.traceSteps = stf.steps := by rw [← hrun]
      rw [hsteps]
      have hkey : ∀ n m, n ∈ stf.outputs.map Prod.fst →
          Relation.TransGen (depEdge wf) m n → m ∈ stf.outputs.map Prod.fst := by
        intro n m hn htg
        induction htg with
        | single hb => exact invf.succ_deps _ hn _ ((depEdge_iff wf hN _ _).mp hb).2
        | tail hp he ih =>
          exact ih (invf.succ_deps _ hn _ ((depEdge_iff wf hN _ _).mp he).2)
      intro n m hsucc htg
      exact (invf.succ_iff m).mpr
        (hkey n m ((invf.succ_iff n).mp hsucc) htg)

theorem slackOnlyServices_sync : syncServices slackOnlyServices := by
  intro s svc hs a c hc
  unfold slackOnlyServices at hs
  by_cases h : s = "slack"
  · rw [if_pos h] at hs
    injection hs with hs
    subst hs
    simp only [slackService] at hc
    by_cases h1 : a = "create_channel"
    · rw [if_pos h1] at hc
      injection hc with hc
      exact ⟨createChannel, hc.symm⟩
    · rw [if_neg h1] at hc
      by_cases h2 : a = "invite_user"
      · rw [if_pos h2] at hc
        injection hc with hc
        exact ⟨inviteUser, hc.symm⟩
      · rw [if_neg h2] at hc
        by_cases h3 : a = "send_message"
        · rw [if_pos h3] at hc
          injection hc with hc
          exact ⟨sendMessage, hc.symm⟩
        · rw [if_neg h3] at hc
          cases hc
  · rw [if_neg h] at hs
    cases hs

/-- Witness for `success_implies_transitive_success` on the concrete
two-node chain. -/
theorem success_implies_transitive_success_witness :
    ((allIds wfChain).Nodup ∧
     execute wfChain slackOnlyServices none (fun _ => false) emptySim [] =
       Except.ok reportChain ∧
     recordedSuccess reportChain.traceSteps "b") ∧
    recordedSuccess reportChain.traceSteps "a" :=
  ⟨⟨by decide, rfl, by unfold recordedSuccess; decide⟩,
   success_implies_transitive_success wfChain slackOnlyServices none
     (fun _ => false) emptySim reportChain (by decide) slackOnlyServices_sync rfl
     "b" "a" (by unfold recordedSuccess; decide)
     (Relation.TransGen.single
       ⟨⟨"b", "slack", "send_message", [], ["a"]⟩, by simp [wfChain], rfl, by simp⟩)⟩

/-- C3 counterexample: dispatching the async-sync chain, `execute`
returns a report in which `n2` is recorded success while its transitive
dependency `n1` — counted successful by the executor — has no success
trace step at all, so the unrestricted claim is false on runs with async
connector actions (hybrid/real mode). -/
theorem async_dependency_breaks_success_invariant :
    execute wfAsyncChain mixedServices none (fun _ => false) emptySim [] =
      Except.ok reportAsyncChain ∧
    Relation.TransGen (depEdge wfAsyncChain) "n1" "n2" ∧
    recordedSuccess reportAsyncChain.traceSteps "n2" ∧
    ¬ recordedSuccess reportAsyncChain.traceSteps "n1" :=
  ⟨rfl,
   Relation.TransGen.single
     ⟨⟨"n2", "slack", "create_channel", [], ["n1"]⟩, by simp [wfAsyncChain],
      rfl, by simp⟩,
   by unfold recordedSuccess; decide,
   by unfold recordedSuccess; decide⟩
